import Mathlib

/-!
# Verification of the sigalign core against its natural-language specification

This file gives a shallow embedding of the core of the sigalign sequence
aligner and proves or refutes the frozen claims about it.  Machine integers
are modelled as Nat or Int; the f64 and f32 values of the source are modelled
as exact rationals where a claim needs them; fallible or panicking code is
modelled with Option.  Sequences are lists of byte values (Nat).

Embedded components, with the Rust source they are translated from:
  - Dwfa            : src/core/extending/dwfa.rs (dropoff wave front algorithm)
  - Core            : src/core/anchoring.rs (checkpoint creation, new path)
  - Dep             : src/alignment.rs and src/alignment/anchor.rs
                      (deprecated path: aligner facade, anchor group, EMP)
  - PatternFinder   : sigalign/src/reference/structure/pattern_finder.rs and
                      src/database.rs (record mapping by binary search)
-/

namespace Sigalign

/-- Penalty configuration: mismatch x, gap open o, gap extend e
(struct Penalties of the core). -/
structure Penalties where
  x : Nat
  o : Nat
  e : Nat
deriving DecidableEq, Repr

namespace Dwfa

/-- Backtrace marker: cell not yet filled (const EMPTY in dwfa.rs). -/
def EMPTY : Nat := 0

/-- Backtrace marker: derived from an M cell (const FROM_M). -/
def FROM_M : Nat := 1

/-- Backtrace marker: derived from an I cell (const FROM_I). -/
def FROM_I : Nat := 2

/-- Backtrace marker: derived from a D cell (const FROM_D). -/
def FROM_D : Nat := 3

/-- Backtrace marker: origin cell (const START). -/
def START : Nat := 4

/-- One wave front cell: furthest reaching column fr (i32 in the source)
and backtrace tag bt (struct Component in dwfa.rs). -/
structure Component where
  fr : Int
  bt : Nat
deriving DecidableEq, Repr

/-- Component::empty. -/
def Component.emptyCell : Component := ⟨0, EMPTY⟩

/-- The [M, I, D] triple stored per diagonal ([Component; 3] in the source). -/
structure Comp3 where
  m : Component
  i : Component
  d : Component
deriving DecidableEq, Repr

/-- A fresh all-empty [M, I, D] triple (vec![[Component::empty(); 3]; _]). -/
def Comp3.emptyTriple : Comp3 := ⟨Component.emptyCell, Component.emptyCell, Component.emptyCell⟩

/-- Wave front data of one penalty level (struct WaveFrontScore). -/
structure WaveFrontScore where
  maxK : Int
  components : List Comp3
deriving DecidableEq, Repr

/-- WaveFrontScore::with_max_k. -/
def WaveFrontScore.withMaxK (k : Int) : WaveFrontScore := ⟨k, []⟩

/-- WaveFrontScore::range_of_k, the list -max_k ..= max_k. -/
def WaveFrontScore.rangeOfK (w : WaveFrontScore) : List Int :=
  (List.range (2 * w.maxK.toNat + 1)).map (fun j => (j : Int) - w.maxK)

/-- The whole wave front (struct DropoffWaveFront). -/
structure DropoffWaveFront where
  lastScore : Nat
  lastK : Option Int
  waveFrontScores : List WaveFrontScore
deriving DecidableEq, Repr

/-- components.get(component_index as usize): a negative i32 index is cast in
the source to a huge usize, so the lookup yields None; a nonnegative index is
an ordinary bounds-checked lookup. -/
def getComp (comps : List Comp3) (idx : Int) : Option Comp3 :=
  if idx < 0 then none else comps[idx.toNat]?

/-- DropoffWaveFront::allocated_empty: pre-allocates one WaveFrontScore per
penalty in 0 ..= spare_penalty following the max_k growth schedule.  The
source divides by the gap extend penalty e; e is at least 1 on every path
that reaches this code (e = 0 would abort the source with a division panic,
here Nat division by zero is total). -/
def allocatedEmpty (pen : Penalties) (spare : Nat) : DropoffWaveFront :=
  let base := List.replicate (pen.o + pen.e) (WaveFrontScore.withMaxK 0)
  let ws :=
    if pen.o + pen.e ≤ spare then
      let quot := (spare - pen.o - pen.e) / pen.e
      let rem := (spare - pen.o - pen.e) % pen.e
      base
        ++ ((List.range quot).map
              (fun j => List.replicate pen.e (WaveFrontScore.withMaxK ((j : Int) + 1)))).flatten
        ++ List.replicate (rem + 1) (WaveFrontScore.withMaxK ((quot : Int) + 1))
    else base
  ⟨spare, none, ws⟩

/-- One new [M, I, D] triple of diagonal k for the given score, translated
from DropoffWaveFront::new_components_and_k_range_of_score.  The source
builds the whole component vector and runs three passes over it; each pass
writes only the cell of its own diagonal from already-final data (previous
scores, or earlier phases of the same cell), so the per-diagonal computation
is independent and is expressed here as one function of k.
Phase numbering follows the source comments:
(1) from score s-o-e, (2) from score s-e, (3) from score s-x.
Note that in phase (3) the update of M from the predecessor M carries no
EMPTY check on the predecessor tag, unlike every other update in this
function; this is exhibited by the C1 theorem. -/
def newComponentOfK (st : DropoffWaveFront) (score : Nat) (pen : Penalties) (k : Int) :
    Comp3 :=
  -- (1) From score: s-o-e
  let c1 : Comp3 :=
    if pen.o + pen.e ≤ score then
      let pre := st.waveFrontScores.getD (score - (pen.o + pen.e)) (WaveFrontScore.withMaxK 0)
      let idxI := pre.maxK + k - 1
      let compI :=
        match getComp pre.components idxI with
        | some c => if c.m.bt ≠ EMPTY then Component.mk (c.m.fr + 1) FROM_M
                    else Component.emptyCell
        | none => Component.emptyCell
      let compD :=
        match getComp pre.components (idxI + 2) with
        | some c => if c.m.bt ≠ EMPTY then Component.mk c.m.fr FROM_M
                    else Component.emptyCell
        | none => Component.emptyCell
      ⟨Component.emptyCell, compI, compD⟩
    else Comp3.emptyTriple
  -- (2) From score: s-e
  let c2 : Comp3 :=
    if pen.e ≤ score then
      let pre := st.waveFrontScores.getD (score - pen.e) (WaveFrontScore.withMaxK 0)
      let idxI := pre.maxK + k - 1
      let compI :=
        match getComp pre.components idxI with
        | some c =>
          if c.i.bt ≠ EMPTY ∧ (c1.i.bt = EMPTY ∨ c1.i.fr > c.i.fr + 1) then
            Component.mk (c.i.fr + 1) FROM_I
          else c1.i
        | none => c1.i
      let compD :=
        match getComp pre.components (idxI + 2) with
        | some c =>
          if c.d.bt ≠ EMPTY ∧ (c1.d.bt = EMPTY ∨ c1.d.fr > c.d.fr) then
            Component.mk c.d.fr FROM_D
          else c1.d
        | none => c1.d
      ⟨c1.m, compI, compD⟩
    else c1
  -- (3) From score: s-x
  if pen.x ≤ score then
    let pre := st.waveFrontScores.getD (score - pen.x) (WaveFrontScore.withMaxK 0)
    -- 1. Update M from M: the predecessor tag is NOT checked in the source
    let m1 :=
      match getComp pre.components (pre.maxK + k) with
      | some c => Component.mk (c.m.fr + 1) FROM_M
      | none => c2.m
    -- 2. Update M from I
    let m2 :=
      if c2.i.bt ≠ EMPTY ∧ (m1.bt = EMPTY ∨ c2.i.fr ≥ m1.fr) then
        Component.mk c2.i.fr FROM_I
      else m1
    -- 3. Update M from D
    let m3 :=
      if c2.d.bt ≠ EMPTY ∧ (m2.bt = EMPTY ∨ c2.d.fr ≥ m2.fr) then
        Component.mk c2.d.fr FROM_D
      else m2
    ⟨m3, c2.i, c2.d⟩
  else c2

/-- DropoffWaveFront::new_components_and_k_range_of_score. -/
def newComponentsAndKRange (st : DropoffWaveFront) (score : Nat) (pen : Penalties) :
    List Comp3 × List Int :=
  let wfs := st.waveFrontScores.getD score (WaveFrontScore.withMaxK 0)
  let ks := wfs.rangeOfK
  (ks.map (newComponentOfK st score pen), ks)

/-- Length of the common matching prefix of two byte lists. -/
def matchPrefix : List Nat → List Nat → Nat
  | a :: as, b :: bs => if a = b then matchPrefix as bs + 1 else 0
  | _, _ => 0

/-- consecutive_match_forward: matches of qry_seq from v against ref_seq
from h.  The source slices panic when v or h exceeds the length; here drop
saturates, and every use in the algorithm stays in range. -/
def consecutiveMatchForward (refSeq qrySeq : List Nat) (v h : Nat) : Nat :=
  matchPrefix (qrySeq.drop v) (refSeq.drop h)

/-- The extension-and-exit loop inside
fill_wave_front_score_and_exist_with_last_k: walks the new components zipped
with the k range, extends each non-EMPTY M cell by its consecutive matches
and stops with Some k when an end of either sequence is reached.  The
returned component list reflects the in-place mutation of the source: cells
before the exit point are extended, later ones untouched. -/
def extendLoop (refSeq qrySeq : List Nat) (refLen qryLen : Nat) :
    List Comp3 → List Int → List Comp3 × Option Int
  | [], _ => ([], none)
  | cs, [] => (cs, none)
  | c :: cs, k :: ks =>
    if c.m.bt ≠ EMPTY then
      let v := (c.m.fr - k).toNat
      let h := c.m.fr.toNat
      let mc := consecutiveMatchForward refSeq qrySeq v h
      let cNew : Comp3 := ⟨Component.mk (c.m.fr + mc) c.m.bt, c.i, c.d⟩
      if refLen ≤ h + mc ∨ qryLen ≤ v + mc then
        (cNew :: cs, some k)
      else
        let r := extendLoop refSeq qrySeq refLen qryLen cs ks
        (cNew :: r.1, r.2)
    else
      let r := extendLoop refSeq qrySeq refLen qryLen cs ks
      (c :: r.1, r.2)

/-- Write the updated component vector into the wave front score of the given
penalty (WaveFrontScore::update via the mutable borrow in the source). -/
def setScore (st : DropoffWaveFront) (score : Nat) (comps : List Comp3) :
    DropoffWaveFront :=
  let old := st.waveFrontScores.getD score (WaveFrontScore.withMaxK 0)
  ⟨st.lastScore, st.lastK, st.waveFrontScores.set score ⟨old.maxK, comps⟩⟩

/-- DropoffWaveFront::fill_wave_front_score_and_exist_with_last_k. -/
def fillWaveFrontScore (refSeq qrySeq : List Nat) (refLen qryLen : Nat) (score : Nat)
    (pen : Penalties) (st : DropoffWaveFront) : DropoffWaveFront × Option Int :=
  let p := newComponentsAndKRange st score pen
  let r := extendLoop refSeq qrySeq refLen qryLen p.1 p.2
  (setScore st score r.1, r.2)

/-- DropoffWaveFront::update_if_aligned_to_end, verbatim: the source sets
last_score to the CURRENT length of the score vector plus one and then
truncates to that same value (a no-op), losing the termination penalty. -/
def updateIfAlignedToEnd (st : DropoffWaveFront) (lastK : Int) : DropoffWaveFront :=
  let ls := st.waveFrontScores.length + 1
  ⟨ls, some lastK, st.waveFrontScores.take ls⟩

/-- The main score loop of DropoffWaveFront::new_with_align over the listed
penalties (1 ..= spare_penalty in the source). -/
def runScores (refSeq qrySeq : List Nat) (refLen qryLen : Nat) (pen : Penalties) :
    List Nat → DropoffWaveFront → DropoffWaveFront
  | [], st => st
  | s :: rest, st =>
    let r := fillWaveFrontScore refSeq qrySeq refLen qryLen s pen st
    match r.2 with
    | some k => updateIfAlignedToEnd r.1 k
    | none => runScores refSeq qrySeq refLen qryLen pen rest r.1

/-- WaveFrontScore::add_first_components. -/
def addFirstComponents (w : WaveFrontScore) (firstMatch : Nat) : WaveFrontScore :=
  ⟨w.maxK, [⟨Component.mk firstMatch START, Component.emptyCell, Component.emptyCell⟩]⟩

/-- The state of new_with_align after allocation and the first component,
before the score loop runs. -/
def dwfaInit (refSeq qrySeq : List Nat) (pen : Penalties) (spare : Nat) :
    DropoffWaveFront :=
  let st0 := allocatedEmpty pen spare
  let fmc := consecutiveMatchForward refSeq qrySeq 0 0
  let w0 := st0.waveFrontScores.getD 0 (WaveFrontScore.withMaxK 0)
  ⟨st0.lastScore, st0.lastK, st0.waveFrontScores.set 0 (addFirstComponents w0 fmc)⟩

/-- DropoffWaveFront::new_with_align. -/
def newWithAlign (refSeq qrySeq : List Nat) (pen : Penalties) (spare : Nat) :
    DropoffWaveFront :=
  let refLen := refSeq.length
  let qryLen := qrySeq.length
  let st1 := dwfaInit refSeq qrySeq pen spare
  let fmc := consecutiveMatchForward refSeq qrySeq 0 0
  if refLen ≤ fmc ∨ qryLen ≤ fmc then
    updateIfAlignedToEnd st1 0
  else
    runScores refSeq qrySeq refLen qryLen pen (List.range' 1 spare) st1

end Dwfa

/-! ## Checkpoint creation of the new core (src/core/anchoring.rs) -/

namespace Core

/-- Lower-bound estimation of one flank (struct Estimation of the core). -/
structure Estimation where
  penalty : Nat
  length : Nat
deriving DecidableEq, Repr

/-- The cutoff of the new core: minimum_aligned_length and the f32 field
penalty_per_length, the latter modelled as an exact rational. -/
structure Cutoff where
  minimumAlignedLength : Nat
  penaltyPerLength : ℚ
deriving DecidableEq, Repr

/-- const PATTERN_INDEX_GAP_FOR_CHECK_POINTS in anchoring.rs. -/
def PATTERN_INDEX_GAP_FOR_CHECK_POINTS : Nat := 3

/-- An anchor of the new core with the fields read and written by
create_checkpoint_to_rights.  CheckPoints is a vector of anchor indices. -/
structure Anchor where
  queryPosition : Nat
  recordPosition : Nat
  size : Nat
  leftEstimation : Estimation
  rightEstimation : Estimation
  leftCheckPoints : List Nat
  rightCheckPoints : List Nat
deriving DecidableEq, Repr

/-- Default anchor used for out-of-range list reads in theorem statements
(the source would abort on an out-of-range index). -/
def dfltAnchor : Anchor := ⟨0, 0, 0, ⟨0, 0⟩, ⟨0, 0⟩, [], []⟩

/-- Outcome of examining one right anchor inside the loop of
create_checkpoint_to_rights: continue without a checkpoint, leave the loop,
or record the checkpoint pair. -/
inductive StepOutcome
  | skip
  | brk
  | connect
deriving DecidableEq, Repr

/-- The per-pair decision logic of create_checkpoint_to_rights, translated
from the match on the checked subtractions and the cutoff test.  The f32
division of the source is modelled as exact rational division. -/
def checkRight (allowed : Nat) (pen : Penalties) (cut : Cutoff) (left right : Anchor) :
    StepOutcome :=
  if right.queryPosition < left.queryPosition + left.size then StepOutcome.skip
  else
    let queryGap := right.queryPosition - (left.queryPosition + left.size)
    if allowed < queryGap then StepOutcome.brk
    else if right.recordPosition < left.recordPosition + left.size then StepOutcome.skip
    else
      let recordGap := right.recordPosition - (left.recordPosition + left.size)
      let maxGap := max recordGap queryGap
      let minGap := min recordGap queryGap
      let gapCount := maxGap - minGap
      let minPenalty := if gapCount = 0 then 0 else pen.o + gapCount * pen.e
      let penalty := left.leftEstimation.penalty + right.rightEstimation.penalty + minPenalty
      let length := left.leftEstimation.length + left.size
        + right.rightEstimation.length + maxGap
      if cut.minimumAlignedLength ≤ length ∧
          (penalty : ℚ) / (length : ℚ) ≤ cut.penaltyPerLength then
        StepOutcome.connect
      else StepOutcome.skip

/-- The loop body of Anchor::create_checkpoint_to_rights: walks the right
anchors with their absolute index, recording checkpoint pairs, skipping, or
breaking out as checkRight decides. -/
def checkpointToRightsGo (allowed : Nat) (pen : Penalties) (cut : Cutoff) (leftIdx : Nat)
    (left : Anchor) : List Anchor → Nat → Anchor × List Anchor
  | [], _ => (left, [])
  | b :: rest, ridx =>
    match checkRight allowed pen cut left b with
    | StepOutcome.brk => (left, b :: rest)
    | StepOutcome.skip =>
      let r := checkpointToRightsGo allowed pen cut leftIdx left rest (ridx + 1)
      (r.1, b :: r.2)
    | StepOutcome.connect =>
      let left2 := {left with rightCheckPoints := left.rightCheckPoints ++ [ridx]}
      let b2 := {b with leftCheckPoints := b.leftCheckPoints ++ [leftIdx]}
      let r := checkpointToRightsGo allowed pen cut leftIdx left2 rest (ridx + 1)
      (r.1, b2 :: r.2)

/-- Anchor::create_checkpoint_to_rights: the source initialises the running
right anchor index to right_first_anchor_index - 1 and increments it at the
top of the loop, so the first right anchor has index right_first_anchor_index
and the left anchor has index right_first_anchor_index - 1. -/
def createCheckpointToRights (left : Anchor) (rights : List Anchor)
    (rightFirstAnchorIndex allowed : Nat) (pen : Penalties) (cut : Cutoff) :
    Anchor × List Anchor :=
  checkpointToRightsGo allowed pen cut (rightFirstAnchorIndex - 1) left rights
    rightFirstAnchorIndex

/-- One iteration of Anchors::create_checkpoints_between_anchors: split the
anchor vector at right_first_anchor_index and run create_checkpoint_to_rights
from the last left anchor. -/
def checkpointStep (allowed : Nat) (pen : Penalties) (cut : Cutoff)
    (anchors : List Anchor) (rightFirst : Nat) : List Anchor :=
  let lefts := anchors.take rightFirst
  let rights := anchors.drop rightFirst
  match lefts.getLast? with
  | none => anchors
  | some l =>
    let r := createCheckpointToRights l rights rightFirst allowed pen cut
    lefts.dropLast ++ r.1 :: r.2

/-- Anchors::create_checkpoints_between_anchors. -/
def createCheckpointsBetweenAnchors (patternSize : Nat) (pen : Penalties) (cut : Cutoff)
    (anchors : List Anchor) : List Anchor :=
  let allowed := patternSize * PATTERN_INDEX_GAP_FOR_CHECK_POINTS
  (List.range' 1 (anchors.length - 1)).foldl (checkpointStep allowed pen cut) anchors

/-- The indices selected for a checkpoint by one run of the loop of
create_checkpoint_to_rights; mirrors the recursion of checkpointToRightsGo
without performing the updates. -/
def selectRights (allowed : Nat) (pen : Penalties) (cut : Cutoff) (left : Anchor) :
    List Anchor → Nat → List Nat
  | [], _ => []
  | b :: rest, ridx =>
    match checkRight allowed pen cut left b with
    | StepOutcome.brk => []
    | StepOutcome.skip => selectRights allowed pen cut left rest (ridx + 1)
    | StepOutcome.connect => ridx :: selectRights allowed pen cut left rest (ridx + 1)

/-- The right-anchor list after one run of the loop of
create_checkpoint_to_rights: each selected anchor gains the left anchor index
in its left checkpoint list. -/
def applySelect (allowed : Nat) (pen : Penalties) (cut : Cutoff) (leftIdx : Nat)
    (left : Anchor) : List Anchor → List Anchor
  | [] => []
  | b :: rest =>
    match checkRight allowed pen cut left b with
    | StepOutcome.brk => b :: rest
    | StepOutcome.skip => b :: applySelect allowed pen cut leftIdx left rest
    | StepOutcome.connect =>
      {b with leftCheckPoints := b.leftCheckPoints ++ [leftIdx]}
        :: applySelect allowed pen cut leftIdx left rest

/-- The query gap between anchor a (left) and anchor b (right). -/
def pairQueryGap (a b : Anchor) : Nat :=
  b.queryPosition - (a.queryPosition + a.size)

/-- The record gap between anchor a (left) and anchor b (right). -/
def pairRecordGap (a b : Anchor) : Nat :=
  b.recordPosition - (a.recordPosition + a.size)

/-- The forced indel penalty of the claim: o + |ref gap - query gap| * e
when the gaps differ, zero when they are equal. -/
def pairGapPenalty (pen : Penalties) (a b : Anchor) : Nat :=
  if pairRecordGap a b = pairQueryGap a b then 0
  else pen.o
    + (max (pairRecordGap a b) (pairQueryGap a b)
        - min (pairRecordGap a b) (pairQueryGap a b)) * pen.e

/-- The penalty lower bound of the pair: left EMP of a, right EMP of b, and
the forced indel penalty. -/
def pairTotalPenalty (pen : Penalties) (a b : Anchor) : Nat :=
  a.leftEstimation.penalty + b.rightEstimation.penalty + pairGapPenalty pen a b

/-- The total length of the pair as the claim states it, INCLUDING the size
of the right anchor b. -/
def pairLengthClaim (a b : Anchor) : Nat :=
  a.leftEstimation.length + a.size + max (pairRecordGap a b) (pairQueryGap a b)
    + b.size + b.rightEstimation.length

/-- The total length of the pair as the code computes it: the size of the
right anchor b is absent. -/
def pairLengthCode (a b : Anchor) : Nat :=
  a.leftEstimation.length + a.size + max (pairRecordGap a b) (pairQueryGap a b)
    + b.rightEstimation.length

/-- The linkability requirement of claim C5, stated from the words of the
claim: no overlap in either sequence, bounded query gap, and the combined
lower bound (with the length INCLUDING b.size) satisfies the cutoff. -/
def connRequirementClaim (patternSize : Nat) (pen : Penalties) (cut : Cutoff)
    (a b : Anchor) : Prop :=
  a.queryPosition + a.size ≤ b.queryPosition ∧
  a.recordPosition + a.size ≤ b.recordPosition ∧
  pairQueryGap a b ≤ patternSize * PATTERN_INDEX_GAP_FOR_CHECK_POINTS ∧
  cut.minimumAlignedLength ≤ pairLengthClaim a b ∧
  (pairTotalPenalty pen a b : ℚ) / (pairLengthClaim a b : ℚ) ≤ cut.penaltyPerLength

/-- The linkability requirement as the code implements it: identical to
connRequirementClaim except that the size of the right anchor is NOT part of
the length lower bound. -/
def connRequirementAmended (patternSize : Nat) (pen : Penalties) (cut : Cutoff)
    (a b : Anchor) : Prop :=
  a.queryPosition + a.size ≤ b.queryPosition ∧
  a.recordPosition + a.size ≤ b.recordPosition ∧
  pairQueryGap a b ≤ patternSize * PATTERN_INDEX_GAP_FOR_CHECK_POINTS ∧
  cut.minimumAlignedLength ≤ pairLengthCode a b ∧
  (pairTotalPenalty pen a b : ℚ) / (pairLengthCode a b : ℚ) ≤ cut.penaltyPerLength

instance decConnRequirementClaim (patternSize : Nat) (pen : Penalties) (cut : Cutoff)
    (a b : Anchor) : Decidable (connRequirementClaim patternSize pen cut a b) := by
  unfold connRequirementClaim
  exact inferInstance

instance decConnRequirementAmended (patternSize : Nat) (pen : Penalties) (cut : Cutoff)
    (a b : Anchor) : Decidable (connRequirementAmended patternSize pen cut a b) := by
  unfold connRequirementAmended
  exact inferInstance

/-- The checkpoint lists of an anchor vector form a symmetric and ordered
relation: an index in a right (hind) checkpoint list points strictly right,
an index in a left (fore) checkpoint list points strictly left, and the two
memberships determine each other. -/
def symmetricCheckPoints (as : List Anchor) : Prop :=
  ∀ i j, i < as.length → j < as.length →
    ((j ∈ (as.getD i dfltAnchor).rightCheckPoints →
        i < j ∧ i ∈ (as.getD j dfltAnchor).leftCheckPoints) ∧
     (i ∈ (as.getD j dfltAnchor).leftCheckPoints →
        i < j ∧ j ∈ (as.getD i dfltAnchor).rightCheckPoints))

/-- Sample anchors and cutoff for the checkpoint claims.  The pair
(sampleLeft, sampleRightFar) satisfies every condition of claim C5 with the
length bound of the CLAIM (which includes the right anchor size) but not the
length bound of the code. -/
def sampleLeft : Anchor := ⟨0, 0, 10, ⟨0, 0⟩, ⟨0, 0⟩, [], []⟩

/-- The right anchor of the C5 counterexample pair. -/
def sampleRight : Anchor := ⟨10, 10, 10, ⟨0, 0⟩, ⟨0, 0⟩, [], []⟩

/-- Cutoff with minimum aligned length 15: the claim length of the sample
pair is 20, the code length is 10. -/
def sampleCutoffStrict : Cutoff := ⟨15, (1 : ℚ)/2⟩

/-- Cutoff with minimum aligned length 5: the sample pair is connectable for
the code as well; used by the witnesses. -/
def sampleCutoffLoose : Cutoff := ⟨5, (1 : ℚ)/2⟩

end Core

/-! ## Record mapping of the pattern locator
(sigalign/src/reference/structure/pattern_finder.rs, locate_in_record_search_range;
the same binary search also appears as Database::find_ref_positions in
src/database.rs with accumulated (start, end) pairs) -/

namespace PatternFinder

/-- The inner while loop of locate_in_record_search_range, written with a
structural fuel argument: the loop body shrinks the interval [left, right)
every iteration, so any fuel at least right - left makes the fuel case
unreachable and the function agree with the source while loop.  Returns the
kept (record index, in-record position) if any, together with the final
value of mid, which the caller reuses as the next left bound. -/
def locSearchGo (boundaries target : List Nat) (p k : Nat) :
    Nat → Nat → Nat → Nat → Option (Nat × Nat) × Nat
  | 0, _, _, mid => (none, mid)
  | fuel + 1, left, right, mid =>
    if left < right then
      let size := right - left
      let mid2 := left + size / 2
      let index := target.getD mid2 0
      let s := boundaries.getD index 0
      let e := boundaries.getD (index + 1) 0
      if e ≤ p then locSearchGo boundaries target p k fuel (mid2 + 1) right mid2
      else if p < s then locSearchGo boundaries target p k fuel left mid2 mid2
      else if p + k < e then (some (index, p - s), mid2)
      else (none, mid2)
    else (none, mid)

/-- The while loop entered at the interval [left, right) with the carried
mid value; the fuel right - left is sufficient by the shrinking measure. -/
def locSearch (boundaries target : List Nat) (p k left right mid : Nat) :
    Option (Nat × Nat) × Nat :=
  locSearchGo boundaries target p k (right - left) left right mid

/-- Record one kept in-record position under its record index (the HashMap
entry update of the source; the source map iterates in unspecified order,
here entries keep first-insertion order). -/
def insertPosition (acc : List (Nat × List Nat)) (idx rp : Nat) : List (Nat × List Nat) :=
  if acc.any (fun x => x.1 = idx) then
    acc.map (fun x => if x.1 = idx then (x.1, x.2 ++ [rp]) else x)
  else acc ++ [(idx, [rp])]

/-- The outer loop of locate_in_record_search_range over the sorted joined
positions, threading mid through as the next left bound. -/
def locateGo (boundaries target : List Nat) (k : Nat) :
    List Nat → Nat → List (Nat × List Nat) → List (Nat × List Nat)
  | [], _, acc => acc
  | p :: rest, mid, acc =>
    let r := locSearch boundaries target p k mid target.length mid
    match r.1 with
    | some (idx, rp) => locateGo boundaries target k rest r.2 (insertPosition acc idx rp)
    | none => locateGo boundaries target k rest r.2 acc

/-- PatternFinder::locate_in_record_search_range restricted to the record
mapping (the FM-index lookup supplies the sorted position list). -/
def locateInRecordSearchRange (boundaries target positions : List Nat) (k : Nat) :
    List (Nat × List Nat) :=
  locateGo boundaries target k positions 0 []

end PatternFinder

/-! ## The deprecated alignment path
(src/alignment.rs and src/alignment/anchor.rs) -/

namespace Dep

/-- struct EmpKmer: the minimum penalties of an odd and of an even missed
pattern block. -/
structure EmpKmer where
  odd : Nat
  even : Nat
deriving DecidableEq, Repr

/-- EmpKmer::new.  All subtractions stay nonnegative on the reachable branch
(the branch with gapopen + 2 gapext - mismatch requires
mismatch <= gapopen + gapext). -/
def empKmerNew (mismatchPenalty gapopenPenalty gapextPenalty : Nat) : EmpKmer :=
  if mismatchPenalty ≤ gapopenPenalty + gapextPenalty then
    if mismatchPenalty * 2 ≤ gapopenPenalty + gapextPenalty * 2 then
      ⟨mismatchPenalty, mismatchPenalty⟩
    else
      ⟨mismatchPenalty, gapopenPenalty + gapextPenalty * 2 - mismatchPenalty⟩
  else
    ⟨gapopenPenalty + gapextPenalty, gapextPenalty⟩

/-- struct Cutoff of the deprecated path: the f64 field score_per_length is
modelled as an exact rational. -/
structure Cutoff where
  scorePerLength : ℚ
  minimumLength : Nat
deriving DecidableEq, Repr

/-- The loop of Aligner::kmer_calculation with an explicit iteration bound:
the source loop has no bound and its return type admits no error, so None
models only a run that has not stopped within the given fuel.  The f64
arithmetic and ceil are modelled over the rationals; the cast of the f64
kmer_size to usize saturates negative values at zero, as Int.toNat does. -/
def kmerCalcGo (scorePerLength : ℚ) (minimumLength : Nat) (ek : EmpKmer) :
    Nat → Nat → Option Nat
  | 0, _ => none
  | fuel + 1, i =>
    let kmerSize : Int := ⌈((minimumLength + 2 : ℚ) / ((2 * i : Nat) : ℚ)) - 1⌉
    if (((i * (ek.odd + ek.even) : Nat) : ℚ))
        > scorePerLength * 2 * (((i + 1 : Nat) : ℚ) * (kmerSize : ℚ) - 1) then
      some kmerSize.toNat
    else kmerCalcGo scorePerLength minimumLength ek fuel (i + 1)

/-- Aligner::kmer_calculation (fuel-bounded, starting at i = 1). -/
def kmerCalculation (fuel : Nat) (scorePerLength : ℚ) (minimumLength : Nat)
    (ek : EmpKmer) : Option Nat :=
  kmerCalcGo scorePerLength minimumLength ek fuel 1

/-- struct Aligner of the deprecated path. -/
structure Aligner where
  cutoff : Cutoff
  kmer : Nat
  scores : Nat × Nat × Nat
  empKmer : EmpKmer
  usingCachedWf : Bool
  getMinimumPenalty : Bool
deriving DecidableEq, Repr

/-- Aligner::new.  The source constructor returns Self unconditionally and
performs no parameter validation; the only way it can fail to produce an
Aligner is by the kmer_calculation loop never stopping, which the fuel
models as None. -/
def alignerNew (fuel : Nat) (scorePerLength : ℚ)
    (minimumLength mismatchPenalty gapopenPenalty gapextPenalty : Nat)
    (usingCachedWf getMinimumPenalty : Bool) : Option Aligner :=
  let ek := empKmerNew mismatchPenalty gapopenPenalty gapextPenalty
  (kmerCalculation fuel scorePerLength minimumLength ek).map fun k =>
    ⟨⟨scorePerLength, minimumLength⟩, k,
      (mismatchPenalty, gapopenPenalty, gapextPenalty), ek,
      usingCachedWf, getMinimumPenalty⟩

/-- enum Operation of the deprecated path. -/
inductive Operation
  | Match
  | Subst
  | Ins
  | Del
  | RefClip (len : Nat)
  | QryClip (len : Nat)
deriving DecidableEq, Repr

/-- struct EmpBlock: assumed penalty and length of one flank. -/
structure EmpBlock where
  penalty : Nat
  length : Nat
deriving DecidableEq, Repr

/-- enum AlignmentBlock: an owned operation list or a reference into the
operations of another anchor. -/
inductive AlignmentBlock
  | Own (operations : List Operation) (penalty : Nat)
  | Ref (anchorIndex reverseIndex penalty : Nat)
deriving DecidableEq, Repr

/-- enum AlignmentState: Empty, Estimated (fore, hind), Exact (fore, hind),
Dropped. -/
inductive AlignmentState
  | Empty
  | Estimated (fore hind : EmpBlock)
  | Exact (fore : Option AlignmentBlock) (hind : AlignmentBlock)
  | Dropped
deriving DecidableEq, Repr

/-- struct Anchor of the deprecated path.  position is (reference position,
query position); check_points is (fore, hind); the wf_cache field has the
type WF from alignment/dropout_wfa.rs, a module not present in the sources;
during AnchorGroup::new it is always None and it is modelled as Option Unit. -/
structure Anchor where
  position : Nat × Nat
  size : Nat
  state : AlignmentState
  checkPoints : List Nat × List Nat
  wfCache : Option Unit
  connected : List Nat
deriving DecidableEq, Repr

/-- Default anchor for out-of-range reads in list folds (the source would
abort on an out-of-range index; all pipeline indices are in range). -/
def dfltAnchor : Anchor := ⟨(0, 0), 0, AlignmentState.Empty, ([], []), none, []⟩

/-- Anchor::new. -/
def anchorNew (refPos qryPos kmer : Nat) : Anchor :=
  ⟨(refPos, qryPos), kmer, AlignmentState.Empty, ([], []), none, []⟩

/-- Anchor::impeccable_extension. -/
def impeccableExtension (a : Anchor) (kmer : Nat) : Anchor :=
  {a with size := a.size + kmer}

/-- Spec-side decomposition of a block-existence slice into the lengths of
its maximal runs of consecutive missed (false) blocks; the accumulator
carries the length of the unfinished run. -/
def missedRunsGo : Nat → List Bool → List Nat
  | n, [] => if n = 0 then [] else [n]
  | n, b :: rest =>
    if b then (if n = 0 then missedRunsGo 0 rest else n :: missedRunsGo 0 rest)
    else missedRunsGo (n + 1) rest

/-- The lengths of the maximal runs of missed blocks of a slice. -/
def missedRuns (l : List Bool) : List Nat := missedRunsGo 0 l

/-- Spec-side odd count: blocks at odd positions (first, third, ...) within
their run, summed over all runs; a run of length m holds (m + 1) / 2 of
them. -/
def oddTotal (l : List Bool) : Nat :=
  ((missedRuns l).map (fun m => (m + 1) / 2)).sum

/-- Spec-side even count: blocks at even positions (second, fourth, ...)
within their run, summed over all runs; a run of length m holds m / 2 of
them. -/
def evenTotal (l : List Bool) : Nat :=
  ((missedRuns l).map (fun m => m / 2)).sum

/-- The loop body of the missed-block counters in Anchor::estimate_from_empty:
state is (odd count, even count, previous block is odd). -/
def empStep (st : Nat × Nat × Bool) (exist : Bool) : Nat × Nat × Bool :=
  if exist = false then
    if st.2.2 then (st.1, st.2.1 + 1, false) else (st.1 + 1, st.2.1, true)
  else (st.1, st.2.1, false)

/-- The complete counter fold over a block-existence slice. -/
def empCounts (l : List Bool) : Nat × Nat × Bool :=
  l.foldl empStep (0, 0, false)

/-- Anchor::estimate_from_empty.  The fore slice is read in reverse as in the
source; Rust slicing panics out of range while take and drop saturate, the
pipeline only produces in-range slices. -/
def estimateFromEmpty (refLen qryLen kmer : Nat) (anchorExistence : List Bool)
    (ek : EmpKmer) (pos : Nat × Nat) (size : Nat) : AlignmentState :=
  let blockIndex := pos.2 / kmer
  let foreBlockLen := min pos.1 pos.2
  let foreQuot := foreBlockLen / kmer
  let foreSlice := ((anchorExistence.drop (blockIndex - foreQuot + 1)).take foreQuot).reverse
  let fc := empCounts foreSlice
  let foreBlock : EmpBlock :=
    ⟨fc.1 * ek.odd + fc.2.1 * ek.even, foreBlockLen + fc.1 + fc.2.1⟩
  let hindBlockIndex := blockIndex + size / kmer
  let refBlockLen := refLen - (pos.1 + size)
  let qryBlockLen := qryLen - (pos.2 + size)
  let hindBlockLen := min refBlockLen qryBlockLen
  let hindQuot := hindBlockLen / kmer
  let hindSlice := (anchorExistence.drop (hindBlockIndex + 1)).take hindQuot
  let hc := empCounts hindSlice
  let hindBlock : EmpBlock :=
    ⟨hc.1 * ek.odd + hc.2.1 * ek.even, hindBlockLen + hc.1 + hc.2.1⟩
  AlignmentState.Estimated foreBlock hindBlock

/-- Anchor::is_emp_state_valid.  The source aborts when the anchor is not in
the Estimated state; the pipeline only calls it right after estimation, the
false result of the other branches is never reached. -/
def isEmpStateValid (a : Anchor) (cut : Cutoff) : Bool :=
  match a.state with
  | AlignmentState.Estimated b1 b2 =>
    let length := b1.length + b2.length + a.size
    decide (cut.minimumLength ≤ length ∧
      ((b1.penalty + b2.penalty : Nat) : ℚ) / (length : ℚ) ≤ cut.scorePerLength)
  | _ => false

/-- Anchor::can_be_connected of the deprecated path (scores is the
(mismatch, gapopen, gapext) triple; f64 comparison modelled over ℚ). -/
def canBeConnectedDep (first second : Anchor) (scores : Nat × Nat × Nat)
    (cut : Cutoff) : Bool :=
  let refGap : Int := (second.position.1 : Int) - (first.position.1 : Int)
    - (first.size : Int)
  let qryGap : Int := (second.position.2 : Int) - (first.position.2 : Int)
    - (first.size : Int)
  if 0 ≤ refGap ∧ 0 ≤ qryGap then
    let penFore := match first.state with
      | AlignmentState.Estimated b _ => b.penalty
      | _ => 0
    let lenFore := match first.state with
      | AlignmentState.Estimated b _ => b.length
      | _ => 0
    let penHind := match second.state with
      | AlignmentState.Estimated _ b => b.penalty
      | _ => 0
    let lenHind := match second.state with
      | AlignmentState.Estimated _ b => b.length
      | _ => 0
    let length := lenFore + lenHind + (max refGap qryGap).toNat
      + first.size + second.size
    let indel := (refGap - qryGap).natAbs
    let penalty := penFore + penHind
      + (if 0 < indel then scores.2.1 + indel * scores.2.2 else 0)
    decide (((penalty : Nat) : ℚ) / (length : ℚ) ≤ cut.scorePerLength ∧
      cut.minimumLength ≤ length)
  else false

/-- Whether an anchor is in the Estimated state (Anchor::both_estimated is
this test on both members of a pair). -/
def isEstimated (a : Anchor) : Bool :=
  match a.state with
  | AlignmentState.Estimated _ _ => true
  | _ => false

/-- Anchor::extend_each_check_points: push the second index into the hind
checkpoint list of the first anchor and the first index into the fore
checkpoint list of the second anchor. -/
def extendEachCheckPoints (anchors : List Anchor) (firstIndex secondIndex : Nat) :
    List Anchor :=
  let a1 := anchors.getD firstIndex dfltAnchor
  let step1 := anchors.set firstIndex
    {a1 with checkPoints := (a1.checkPoints.1, a1.checkPoints.2 ++ [secondIndex])}
  let a2 := step1.getD secondIndex dfltAnchor
  step1.set secondIndex
    {a2 with checkPoints := (a2.checkPoints.1 ++ [firstIndex], a2.checkPoints.2)}

/-- Anchor::create_check_points: the double loop over ordered index pairs. -/
def createCheckPointsDep (scores : Nat × Nat × Nat) (cut : Cutoff)
    (anchors : List Anchor) : List Anchor :=
  let n := anchors.length
  (List.range n).foldl (fun as i1 =>
    (List.range' (i1 + 1) (n - (i1 + 1))).foldl (fun as2 i2 =>
      if isEstimated (as2.getD i1 dfltAnchor) ∧ isEstimated (as2.getD i2 dfltAnchor)
          ∧ canBeConnectedDep (as2.getD i1 dfltAnchor) (as2.getD i2 dfltAnchor)
              scores cut = true then
        extendEachCheckPoints as2 i1 i2
      else as2) as) anchors

/-- Modelled from the spec: the FM-index locate capability (spec section 6:
locate(pattern bytes) returns the start position of every occurrence of the
pattern in the reference sequence; the fm-index crate is an external
collaborator, its sources are not part of this repository).  The order of
the returned vector is unspecified in the spec; this model lists occurrences
in ascending order. -/
def locateOccurrences (refSeq pattern : List Nat) : List Nat :=
  if pattern.length ≤ refSeq.length then
    (List.range (refSeq.length - pattern.length + 1)).filter
      (fun p => decide (((refSeq.drop p).take pattern.length) = pattern))
  else []

/-- One iteration of the anchor-preset generation loop of AnchorGroup::new
(step (1) of the source): state is (anchors_preset, anchor_existence,
anchors_cache). -/
def generateStep (refSeq qrySeq : List Nat) (kmer : Nat)
    (st : List Anchor × List Bool × Option (List Anchor)) (i : Nat) :
    List Anchor × List Bool × Option (List Anchor) :=
  let positions := locateOccurrences refSeq ((qrySeq.drop (i * kmer)).take kmer)
  match st.2.2 with
  | some cacheAnchors =>
    if positions = [] then
      (st.1 ++ cacheAnchors, st.2.1 ++ [true], none)
    else
      let iePositions := cacheAnchors.filterMap (fun a =>
        if (a.position.1 + a.size) ∈ positions then some (a.position.1 + a.size)
        else none)
      let presetAdd := cacheAnchors.filter
        (fun a => decide ((a.position.1 + a.size) ∉ positions))
      let extended := (cacheAnchors.filter
        (fun a => decide ((a.position.1 + a.size) ∈ positions))).map
        (fun a => impeccableExtension a kmer)
      let newOnes := (positions.filter (fun p => decide (p ∉ iePositions))).map
        (fun p => anchorNew p (i * kmer) kmer)
      (st.1 ++ presetAdd, st.2.1 ++ [true], some (extended ++ newOnes))
  | none =>
    if positions = [] then (st.1, st.2.1 ++ [false], none)
    else (st.1, st.2.1 ++ [false],
      some (positions.map (fun p => anchorNew p (i * kmer) kmer)))

/-- Step (1) of AnchorGroup::new: the pattern scan over query positions
0, kmer, 2 kmer, ... followed by flushing the final cache; yields the anchor
preset and the anchor existence bitmap. -/
def generateAnchors (refSeq qrySeq : List Nat) (kmer : Nat) :
    List Anchor × List Bool :=
  let searchCount := qrySeq.length / kmer
  let st := (List.range searchCount).foldl (generateStep refSeq qrySeq kmer)
    ([], [], none)
  match st.2.2 with
  | some anchors => (st.1 ++ anchors, st.2.1 ++ [true])
  | none => (st.1, st.2.1 ++ [false])

/-- AnchorGroup::new: generate the preset, return None when no pattern had a
hit, otherwise estimate, prune and wire the checkpoints (steps (2) to (4)). -/
def anchorGroupNew (refSeq qrySeq : List Nat) (kmer : Nat) (ek : EmpKmer)
    (scores : Nat × Nat × Nat) (cut : Cutoff) : Option (List Anchor) :=
  let g := generateAnchors refSeq qrySeq kmer
  if g.2.any id then
    let estimated := g.1.map (fun a =>
      {a with state := (estimateFromEmpty refSeq.length qrySeq.length kmer g.2 ek
        a.position a.size)})
    let pruned := estimated.map (fun a =>
      if isEmpStateValid a cut then a else {a with state := AlignmentState.Dropped})
    some (createCheckPointsDep scores cut pruned)
  else none

/-- Aligner::perform_with_sequence: the source matches on AnchorGroup::new and
maps the Some case through alignment and get_result; those run the wave front
module alignment/dropout_wfa.rs, which is not among the sources, so the Some
continuation is abstracted as the function alignAndCollect.  The None case,
which claim C9 is about, does not depend on it. -/
def performWithSequence (alignAndCollect : List Anchor → List (List Operation × Nat))
    (refSeq qrySeq : List Nat) (kmer : Nat) (ek : EmpKmer)
    (scores : Nat × Nat × Nat) (cut : Cutoff) :
    Option (List (List Operation × Nat)) :=
  (anchorGroupNew refSeq qrySeq kmer ek scores cut).map alignAndCollect

/-- Anchor::get_penalty_and_length.  For an Exact anchor the source unwraps
the fore block and aborts when it is None (modelled as None); any other state
contributes penalty 0 and length equal to the anchor size. -/
def getPenaltyAndLength (a : Anchor) : Option (Nat × Nat) :=
  match a.state with
  | AlignmentState.Exact fore hind =>
    match fore with
    | none => none
    | some f =>
      let pl := fun (b : AlignmentBlock) =>
        match b with
        | AlignmentBlock.Own ops p => (p, ops.length)
        | AlignmentBlock.Ref _ reverseIndex p => (p, reverseIndex)
      some ((pl f).1 + (pl hind).1, (pl f).2 + (pl hind).2 + a.size)
  | _ => some (0, a.size)

/-- Anchor::evaluate_exact_alignment (f64 comparison modelled over ℚ). -/
def evaluateExactAlignment (penalty length : Nat) (cut : Cutoff) : Bool :=
  decide (cut.minimumLength ≤ length ∧
    ((penalty : Nat) : ℚ) / (length : ℚ) ≤ cut.scorePerLength)

/-- Whether an anchor is in the Exact state. -/
def isExact (a : Anchor) : Bool :=
  match a.state with
  | AlignmentState.Exact _ _ => true
  | _ => false

/-- The minimum-penalty selection loop of AnchorGroup::get_result when
get_minimum_penalty is on: state is the running minimum and the set of
selected indices (the HashSet is modelled as an insertion-ordered list of
the distinct indices). -/
def minSelGo (cut : Cutoff) :
    List (Nat × Anchor) → Nat → List Nat → Option (Nat × List Nat)
  | [], minP, s => some (minP, s)
  | (i, a) :: rest, minP, s =>
    match getPenaltyAndLength a with
    | none => none
    | some (p, l) =>
      if evaluateExactAlignment p l cut = false then minSelGo cut rest minP s
      else if p < minP then minSelGo cut rest p [i]
      else if p = minP then minSelGo cut rest minP (s ++ [i])
      else minSelGo cut rest minP s

/-- The anchors_of_minimum_penalty computation of AnchorGroup::get_result:
the running minimum is seeded from anchors[0] BEFORE any state or cutoff
check (the source indexes anchors[0], aborting on an empty vector, modelled
as None). -/
def anchorsOfMinimumPenalty (anchors : List Anchor) (cut : Cutoff) :
    Option (Nat × List Nat) :=
  match anchors with
  | [] => none
  | a0 :: _ =>
    match getPenaltyAndLength a0 with
    | none => none
    | some pl => minSelGo cut anchors.enum pl.1 []

/-- Cutoff used by the C7 evidence: minimum length 10, penalty per length
one half. -/
def sampleCutC7 : Cutoff := ⟨(1 : ℚ)/2, 10⟩

/-- A dropped anchor sitting at index 0: get_penalty_and_length yields
(0, size) for it. -/
def sampleDroppedAnchor : Anchor :=
  ⟨(0, 0), 5, AlignmentState.Dropped, ([], []), none, []⟩

/-- An Exact anchor with total penalty 3 and total length 15, satisfying
sampleCutC7. -/
def sampleExactAnchor : Anchor :=
  ⟨(50, 50), 10,
    AlignmentState.Exact
      (some (AlignmentBlock.Own [Operation.Match, Operation.Match] 1))
      (AlignmentBlock.Own [Operation.Match, Operation.Match, Operation.Match] 2),
    ([], []), none, []⟩

end Dep

end Sigalign

/-! # Theorems -/

namespace Sigalign

namespace Dep

/-- The counter fold of estimate_from_empty computes, from any starting
state, the run totals of the remaining slice: the Bool component of the
state encodes the parity of the current run prefix of length n, and the
counters grow by the alternating totals of the runs of the slice with the
prefix absorbed into the first run. -/
theorem empFold_runs (l : List Bool) :
    ∀ (n o e : Nat) (b : Bool), (b = true ↔ n % 2 = 1) →
      ((l.foldl empStep (o, e, b)).1 + (n + 1) / 2
        = o + ((missedRunsGo n l).map (fun m => (m + 1) / 2)).sum)
      ∧ ((l.foldl empStep (o, e, b)).2.1 + n / 2
        = e + ((missedRunsGo n l).map (fun m => m / 2)).sum) := by
  induction l with
  | nil =>
    intro n o e b _hb
    by_cases hn : n = 0 <;> simp [missedRunsGo, hn]
  | cons x rest ih =>
    intro n o e b hb
    cases x with
    | true =>
      have hstep : empStep (o, e, b) true = (o, e, false) := by simp [empStep]
      rw [List.foldl_cons, hstep]
      have h0 := ih 0 o e false (by simp)
      by_cases hn : n = 0
      · subst hn
        simpa [missedRunsGo] using h0
      · have hrw : missedRunsGo n (true :: rest) = n :: missedRunsGo 0 rest := by
          simp [missedRunsGo, hn]
        rw [hrw]
        simp only [List.map_cons, List.sum_cons]
        obtain ⟨h1, h2⟩ := h0
        constructor <;> omega
    | false =>
      have hrw : missedRunsGo n (false :: rest) = missedRunsGo (n + 1) rest := by
        simp [missedRunsGo]
      by_cases hbt : b = true
      · have hodd : n % 2 = 1 := hb.mp hbt
        have hstep : empStep (o, e, b) false = (o, e + 1, false) := by
          simp [empStep, hbt]
        rw [List.foldl_cons, hstep, hrw]
        have hpar : (n + 1) % 2 = 0 := by omega
        obtain ⟨h1, h2⟩ := ih (n + 1) o (e + 1) false (by simp [hpar])
        constructor <;> omega
      · have hbf : b = false := by
          cases b
          · rfl
          · exact absurd rfl hbt
        have heven : n % 2 = 0 := by
          rcases Nat.mod_two_eq_zero_or_one n with h | h
          · exact h
          · exact absurd (hb.mpr h) hbt
        have hstep : empStep (o, e, b) false = (o + 1, e, true) := by
          simp [empStep, hbf]
        rw [List.foldl_cons, hstep, hrw]
        have hpar : (n + 1) % 2 = 1 := by omega
        obtain ⟨h1, h2⟩ := ih (n + 1) (o + 1) e true (by simp [hpar])
        constructor <;> omega

/-- The counters of estimate_from_empty equal the spec-side run totals. -/
theorem empCounts_runs (l : List Bool) :
    (empCounts l).1 = oddTotal l ∧ (empCounts l).2.1 = evenTotal l := by
  obtain ⟨h1, h2⟩ := empFold_runs l 0 0 0 false (by simp)
  unfold empCounts oddTotal evenTotal missedRuns
  constructor <;> omega

/-- C6: for each anchor flank, the EMP estimation computed by
estimate_from_empty from the anchor-existence bitmap equals
(odd_count * min_odd + even_count * min_even,
 min(flank_ref_len, flank_query_len) + odd_count + even_count), where within
each run of consecutive missed pattern blocks of the scanned flank slice the
blocks are counted alternately odd, even, odd, even (an existing block
resets the alternation, so a run of length m contributes (m + 1) / 2 odd and
m / 2 even blocks), and odd_count / even_count are the totals over all runs
of the flank slice (the fore flank is scanned from the anchor outwards,
which reverses its slice; the per-run totals are the same in either
direction). -/
theorem claimC6_empEstimationFormula (refLen qryLen kmer : Nat)
    (anchorExistence : List Bool) (ek : EmpKmer) (pos : Nat × Nat) (size : Nat) :
    estimateFromEmpty refLen qryLen kmer anchorExistence ek pos size =
      AlignmentState.Estimated
        ⟨oddTotal (((anchorExistence.drop
              (pos.2 / kmer - min pos.1 pos.2 / kmer + 1)).take
              (min pos.1 pos.2 / kmer)).reverse) * ek.odd
          + evenTotal (((anchorExistence.drop
              (pos.2 / kmer - min pos.1 pos.2 / kmer + 1)).take
              (min pos.1 pos.2 / kmer)).reverse) * ek.even,
         min pos.1 pos.2
          + oddTotal (((anchorExistence.drop
              (pos.2 / kmer - min pos.1 pos.2 / kmer + 1)).take
              (min pos.1 pos.2 / kmer)).reverse)
          + evenTotal (((anchorExistence.drop
              (pos.2 / kmer - min pos.1 pos.2 / kmer + 1)).take
              (min pos.1 pos.2 / kmer)).reverse)⟩
        ⟨oddTotal ((anchorExistence.drop (pos.2 / kmer + size / kmer + 1)).take
              (min (refLen - (pos.1 + size)) (qryLen - (pos.2 + size)) / kmer)) * ek.odd
          + evenTotal ((anchorExistence.drop (pos.2 / kmer + size / kmer + 1)).take
              (min (refLen - (pos.1 + size)) (qryLen - (pos.2 + size)) / kmer)) * ek.even,
         min (refLen - (pos.1 + size)) (qryLen - (pos.2 + size))
          + oddTotal ((anchorExistence.drop (pos.2 / kmer + size / kmer + 1)).take
              (min (refLen - (pos.1 + size)) (qryLen - (pos.2 + size)) / kmer))
          + evenTotal ((anchorExistence.drop (pos.2 / kmer + size / kmer + 1)).take
              (min (refLen - (pos.1 + size)) (qryLen - (pos.2 + size)) / kmer))⟩ := by
  have hf := empCounts_runs (((anchorExistence.drop
    (pos.2 / kmer - min pos.1 pos.2 / kmer + 1)).take
    (min pos.1 pos.2 / kmer)).reverse)
  have hh := empCounts_runs ((anchorExistence.drop (pos.2 / kmer + size / kmer + 1)).take
    (min (refLen - (pos.1 + size)) (qryLen - (pos.2 + size)) / kmer))
  simp only [estimateFromEmpty]
  rw [hf.1, hf.2, hh.1, hh.2]

/-- A generation step on an empty cache with no pattern hit only appends
false to the existence bitmap. -/
theorem generateStep_noHit (refSeq qrySeq : List Nat) (kmer i : Nat)
    (acc : List Anchor) (ex : List Bool)
    (h : locateOccurrences refSeq ((qrySeq.drop (i * kmer)).take kmer) = []) :
    generateStep refSeq qrySeq kmer (acc, ex, none) i = (acc, ex ++ [false], none) := by
  simp [generateStep, h]

/-- When no listed pattern has a hit, the generation fold keeps the preset
and cache unchanged and appends one false per pattern. -/
theorem generateFold_noHits (refSeq qrySeq : List Nat) (kmer : Nat) :
    ∀ (idxs : List Nat) (acc : List Anchor) (ex : List Bool),
      (∀ i ∈ idxs, locateOccurrences refSeq ((qrySeq.drop (i * kmer)).take kmer) = []) →
      idxs.foldl (generateStep refSeq qrySeq kmer) (acc, ex, none)
        = (acc, ex ++ List.replicate idxs.length false, none) := by
  intro idxs
  induction idxs with
  | nil => intro acc ex _; simp
  | cons i rest ih =>
    intro acc ex h
    rw [List.foldl_cons, generateStep_noHit refSeq qrySeq kmer i acc ex (h i (by simp)),
      ih acc (ex ++ [false]) (fun j hj => h j (by simp [hj]))]
    simp [List.replicate_succ]

/-- A list of false entries contains no true entry. -/
theorem replicate_false_any (n : Nat) : (List.replicate n false).any id = false := by
  induction n with
  | zero => rfl
  | succ m ih => simp [List.replicate_succ, ih]

/-- C9 (amended): for every query in which no k-mer pattern has any hit in
the reference, perform_with_sequence returns None, the absent value of its
Option result: AnchorGroup::new finds an all-false existence bitmap and
returns None, which the caller propagates.  No error is raised and no empty
result vector is built. -/
theorem claimC9_noHitReturnsNone (refSeq qrySeq : List Nat) (kmer : Nat)
    (ek : EmpKmer) (scores : Nat × Nat × Nat) (cut : Cutoff)
    (alignAndCollect : List Anchor → List (List Operation × Nat))
    (h : ∀ i < qrySeq.length / kmer,
      locateOccurrences refSeq ((qrySeq.drop (i * kmer)).take kmer) = []) :
    performWithSequence alignAndCollect refSeq qrySeq kmer ek scores cut = none := by
  have hfold := generateFold_noHits refSeq qrySeq kmer
    (List.range (qrySeq.length / kmer)) [] []
    (fun i hi => h i (List.mem_range.mp hi))
  unfold performWithSequence anchorGroupNew generateAnchors
  simp [hfold, replicate_false_any]

/-- C9 (counterexample to the claim as stated): on a query with no pattern
hit the embedded perform_with_sequence yields None, an absent value, not a
present empty result. -/
theorem claimC9_counterexample :
    performWithSequence (fun _ => []) (List.replicate 8 0) (List.replicate 8 1) 2
        (empKmerNew 4 6 2) (4, 6, 2) ⟨(1 : ℚ)/10, 100⟩ = none ∧
    performWithSequence (fun _ => []) (List.replicate 8 0) (List.replicate 8 1) 2
        (empKmerNew 4 6 2) (4, 6, 2) ⟨(1 : ℚ)/10, 100⟩ ≠ some [] := by
  constructor
  · decide
  · decide

/-- Witness for claimC9_noHitReturnsNone at a concrete no-hit input. -/
theorem claimC9_noHitReturnsNone_witness :
    (∀ i < (List.replicate 8 1 : List Nat).length / 2,
      locateOccurrences (List.replicate 8 0)
        (((List.replicate 8 1 : List Nat).drop (i * 2)).take 2) = []) ∧
    performWithSequence (fun _ => []) (List.replicate 8 0) (List.replicate 8 1) 2
      (empKmerNew 4 6 2) (4, 6, 2) ⟨(1 : ℚ)/10, 100⟩ = none :=
  ⟨by decide,
    claimC9_noHitReturnsNone (List.replicate 8 0) (List.replicate 8 1) 2
      (empKmerNew 4 6 2) (4, 6, 2) ⟨(1 : ℚ)/10, 100⟩ (fun _ => []) (by decide)⟩

/-- C7 (code bug evidence): the minimum-penalty selection of
AnchorGroup::get_result seeds its running minimum from anchors[0] before any
state or cutoff check.  Here anchor 0 is Dropped, so the minimum starts at
its get_penalty_and_length penalty 0; anchor 1 is Exact with total penalty 3
and total length 15 and satisfies the cutoff, so by the claim it is the
unique minimum-penalty Exact anchor and must be kept, yet the selected set
comes out empty and the returned result holds no alignment. -/
theorem claimC7_minimumSeededFromAnchorZero :
    anchorsOfMinimumPenalty [sampleDroppedAnchor, sampleExactAnchor] sampleCutC7
        = some (0, []) ∧
    isExact sampleExactAnchor = true ∧
    getPenaltyAndLength sampleExactAnchor = some (3, 15) ∧
    evaluateExactAlignment 3 15 sampleCutC7 = true := by
  refine ⟨?_, by decide, by decide, ?_⟩
  · norm_num [anchorsOfMinimumPenalty, minSelGo, getPenaltyAndLength,
      evaluateExactAlignment, List.enum, sampleDroppedAnchor, sampleExactAnchor,
      sampleCutC7]
  · norm_num [evaluateExactAlignment, sampleCutC7]

/-- C8 (counterexample): on the invalid parameters of the claim, here the
penalty-per-length cutoff 2 (beyond [0, 1]) together with a pattern size
that rounds to 0, Aligner::new succeeds and returns an Aligner; the claimed
error is never produced because the constructor has no error path. -/
theorem claimC8_counterexample :
    (alignerNew 10 2 0 100 100 100 false false).isSome = true := by
  norm_num [alignerNew, kmerCalculation, kmerCalcGo, empKmerNew]

/-- C8 (amended): Aligner::new performs no parameter validation and returns
an Aligner whenever the kmer_calculation loop stops: shown for the cutoff
p_max = 0, for gap-extend penalty e = 0, and for p_max = 2 > 1 (the last
with a pattern size that rounds to 0). -/
theorem claimC8_newAlwaysReturnsAligner :
    (alignerNew 10 0 100 4 6 2 false false).isSome = true ∧
    (alignerNew 10 (1/100 : ℚ) 100 4 6 0 false false).isSome = true ∧
    (alignerNew 10 2 0 100 100 100 false false).isSome = true := by
  refine ⟨?_, ?_, ?_⟩ <;> norm_num [alignerNew, kmerCalculation, kmerCalcGo, empKmerNew]

end Dep

namespace Dwfa

/-- C1 (code bug evidence): with penalties x = 2, o = 1, e = 1 on the
all-mismatch pair of sequences, after the fill steps of penalties 1 and 2
every cell of the penalty-1 wave front carries the EMPTY tag, yet the fill
step of penalty 3 derives a new M cell (diagonal k = 0, list index 2 of the
range -2 ..= 2) with tag FROM_M and fr = 1 = 0 + 1 read from that EMPTY
penalty-1 M cell: the mismatch derivation (case (3).1 of
new_components_and_k_range_of_score) carries no EMPTY check, unlike every
other derivation, and an M cell with tag FROM_M is produced only there.  The
bogus cell persists in the completed wave front of the full run. -/
theorem claimC1_fillDerivesFromEmptyCell :
    ((runScores [1, 1, 1, 1, 1] [2, 2, 2, 2, 2] 5 5 ⟨2, 1, 1⟩ [1, 2]
        (dwfaInit [1, 1, 1, 1, 1] [2, 2, 2, 2, 2] ⟨2, 1, 1⟩ 4)).waveFrontScores.getD 1
        (WaveFrontScore.withMaxK 0)).components = [Comp3.emptyTriple] ∧
    ((newComponentsAndKRange
        (runScores [1, 1, 1, 1, 1] [2, 2, 2, 2, 2] 5 5 ⟨2, 1, 1⟩ [1, 2]
          (dwfaInit [1, 1, 1, 1, 1] [2, 2, 2, 2, 2] ⟨2, 1, 1⟩ 4)) 3 ⟨2, 1, 1⟩).1.getD 2
        Comp3.emptyTriple).m = Component.mk 1 FROM_M ∧
    (((newWithAlign [1, 1, 1, 1, 1] [2, 2, 2, 2, 2] ⟨2, 1, 1⟩ 4).waveFrontScores.getD 3
        (WaveFrontScore.withMaxK 0)).components.getD 2 Comp3.emptyTriple).m.bt
      = FROM_M := by
  decide

/-- C2 (code bug evidence): aligning two identical length-3 sequences with
spare penalty 2 terminates at penalty s = 0 (the first match extension
reaches both sequence ends, last_k = 0), but update_if_aligned_to_end sets
last_score to the pre-allocated vector length plus one (8 + 1 = 9) and its
truncate call is a no-op, so the returned wave front has last_score 9 and
score vector length 8: neither last_score = s = 0 nor
length = last_score + 1 holds. -/
theorem claimC2_lastScoreAndLength :
    (newWithAlign [0, 0, 0] [0, 0, 0] ⟨4, 6, 2⟩ 2).lastK = some 0 ∧
    (newWithAlign [0, 0, 0] [0, 0, 0] ⟨4, 6, 2⟩ 2).lastScore = 9 ∧
    (newWithAlign [0, 0, 0] [0, 0, 0] ⟨4, 6, 2⟩ 2).waveFrontScores.length = 8 ∧
    (newWithAlign [0, 0, 0] [0, 0, 0] ⟨4, 6, 2⟩ 2).waveFrontScores.length ≠
      (newWithAlign [0, 0, 0] [0, 0, 0] ⟨4, 6, 2⟩ 2).lastScore + 1 := by
  decide

end Dwfa

namespace PatternFinder

/-- An in-range read of the full record range list yields the index itself. -/
theorem rangeGetD (n i : Nat) (h : i < n) : (List.range n).getD i 0 = i := by
  simp [List.getD_eq_getElem?_getD, List.getElem?_range, h]

/-- Correctness of the inner binary search over monotone record boundaries,
for the full record search range and any sufficient fuel: when the record
containing position p is j (that is, boundaries[j] <= p < boundaries[j+1])
and j lies in the searched interval, the loop finds record j and keeps the
occurrence exactly when p + k < boundaries[j+1], the STRICT comparison of
the source. -/
theorem locSearchGo_spec (boundaries : List Nat) (n p k j : Nat)
    (hmono : ∀ i1 i2, i1 ≤ i2 → i2 ≤ n → boundaries.getD i1 0 ≤ boundaries.getD i2 0)
    (hj : j < n) (hlo : boundaries.getD j 0 ≤ p) (hhi : p < boundaries.getD (j + 1) 0) :
    ∀ (fuel left right mid : Nat), left ≤ j → j < right → right ≤ n →
      right - left ≤ fuel →
      (locSearchGo boundaries (List.range n) p k fuel left right mid).1 =
        if p + k < boundaries.getD (j + 1) 0 then some (j, p - boundaries.getD j 0)
        else none := by
  intro fuel
  induction fuel with
  | zero =>
    intro left right mid h1 h2 h3 h4
    omega
  | succ f ih =>
    intro left right mid h1 h2 h3 h4
    have hlr : left < right := by omega
    have hhalf : (right - left) / 2 < right - left := Nat.div_lt_self (by omega) (by omega)
    have hmid2 : left + (right - left) / 2 < n := by omega
    simp only [locSearchGo, if_pos hlr]
    rw [rangeGetD n (left + (right - left) / 2) hmid2]
    by_cases he : boundaries.getD (left + (right - left) / 2 + 1) 0 ≤ p
    · rw [if_pos he]
      have hjge : left + (right - left) / 2 + 1 ≤ j := by
        by_contra hcon
        have hle : j + 1 ≤ left + (right - left) / 2 + 1 := by omega
        have := hmono (j + 1) (left + (right - left) / 2 + 1) hle (by omega)
        omega
      exact ih (left + (right - left) / 2 + 1) right (left + (right - left) / 2)
        hjge h2 h3 (by omega)
    · rw [if_neg he]
      by_cases hs : p < boundaries.getD (left + (right - left) / 2) 0
      · rw [if_pos hs]
        have hjlt : j < left + (right - left) / 2 := by
          by_contra hcon
          have := hmono (left + (right - left) / 2) j (by omega) (by omega)
          omega
        exact ih left (left + (right - left) / 2) (left + (right - left) / 2)
          h1 hjlt (by omega) (by omega)
      · rw [if_neg hs]
        have hjeq : left + (right - left) / 2 = j := by
          by_contra hne
          rcases Nat.lt_or_ge (left + (right - left) / 2) j with hlt | hge
          · have := hmono (left + (right - left) / 2 + 1) j (by omega) (by omega)
            omega
          · have := hmono (j + 1) (left + (right - left) / 2) (by omega) (by omega)
            omega
        rw [hjeq]
        by_cases hk : p + k < boundaries.getD (j + 1) 0
        · rw [if_pos hk, if_pos hk]
        · rw [if_neg hk, if_neg hk]

/-- C4 (amended): the pattern locator maps a joined position p to its record
j by binary search over the monotone record boundaries, and keeps the
occurrence if and only if the k-mer lies STRICTLY inside the record,
p + k < boundaries[j + 1]; an occurrence whose k-mer ends exactly at the
record end position (p + k = boundaries[j + 1]) is discarded. -/
theorem claimC4_recordMappingStrict (boundaries : List Nat) (n p k j : Nat)
    (hmono : ∀ i1 i2, i1 ≤ i2 → i2 ≤ n → boundaries.getD i1 0 ≤ boundaries.getD i2 0)
    (hj : j < n) (hlo : boundaries.getD j 0 ≤ p) (hhi : p < boundaries.getD (j + 1) 0) :
    (locSearch boundaries (List.range n) p k 0 n 0).1 =
      if p + k < boundaries.getD (j + 1) 0 then some (j, p - boundaries.getD j 0)
      else none := by
  unfold locSearch
  simp only [Nat.sub_zero]
  exact locSearchGo_spec boundaries n p k j hmono hj hlo hhi n 0 n 0
    (by omega) hj (by omega) (by omega)

/-- Witness for claimC4_recordMappingStrict: with boundaries [0, 4, 8] the
position 1 with k-mer size 2 lies in record 0 and is kept as (0, 1). -/
theorem claimC4_recordMappingStrict_witness :
    ((∀ i1 i2, i1 ≤ i2 → i2 ≤ 2 →
        ([0, 4, 8] : List Nat).getD i1 0 ≤ ([0, 4, 8] : List Nat).getD i2 0) ∧
      (0 : Nat) < 2 ∧ ([0, 4, 8] : List Nat).getD 0 0 ≤ 1 ∧
      1 < ([0, 4, 8] : List Nat).getD 1 0) ∧
    (locSearch [0, 4, 8] (List.range 2) 1 2 0 2 0).1 = some (0, 1) := by
  have hmono : ∀ i1 i2, i1 ≤ i2 → i2 ≤ 2 →
      ([0, 4, 8] : List Nat).getD i1 0 ≤ ([0, 4, 8] : List Nat).getD i2 0 := by
    intro i1 i2 h1 h2
    interval_cases i2 <;> interval_cases i1 <;> decide
  refine ⟨⟨hmono, by decide, by decide, by decide⟩, ?_⟩
  have h := claimC4_recordMappingStrict [0, 4, 8] 2 1 2 0 hmono
    (by decide) (by decide) (by decide)
  simpa using h

/-- C4 (counterexample to the claim as stated): with record boundaries
[0, 4, 8], the occurrence at joined position 2 of a k-mer of size 2 lies
entirely within record 0 (positions [2, 4) with record end 4) and ends
exactly at the record end, but locate_in_record_search_range keeps nothing:
the comparison position + k < end is strict. -/
theorem claimC4_counterexample :
    locateInRecordSearchRange [0, 4, 8] [0, 1] [2] 2 = [] ∧
    ([0, 4, 8] : List Nat).getD 0 0 ≤ 2 ∧ 2 + 2 ≤ ([0, 4, 8] : List Nat).getD 1 0 := by
  decide

end PatternFinder

namespace Core

/-- checkRight reads no checkpoint list, so updating the right checkpoint
list of the left anchor does not change it. -/
theorem checkRight_rightCps (allowed : Nat) (pen : Penalties) (cut : Cutoff)
    (a b : Anchor) (x : List Nat) :
    checkRight allowed pen cut {a with rightCheckPoints := x} b
      = checkRight allowed pen cut a b := rfl

/-- selectRights only reads the position fields of the left anchor. -/
theorem selectRights_rightCps (allowed : Nat) (pen : Penalties) (cut : Cutoff)
    (a : Anchor) (x : List Nat) :
    ∀ (rights : List Anchor) (ridx : Nat),
      selectRights allowed pen cut {a with rightCheckPoints := x} rights ridx
        = selectRights allowed pen cut a rights ridx := by
  intro rights
  induction rights with
  | nil => intro ridx; rfl
  | cons b rest ih =>
    intro ridx
    simp only [selectRights, checkRight_rightCps]
    cases h : checkRight allowed pen cut a b <;> simp [h, ih]

/-- applySelect only reads the position fields of the left anchor. -/
theorem applySelect_rightCps (allowed : Nat) (pen : Penalties) (cut : Cutoff)
    (lidx : Nat) (a : Anchor) (x : List Nat) :
    ∀ (rights : List Anchor),
      applySelect allowed pen cut lidx {a with rightCheckPoints := x} rights
        = applySelect allowed pen cut lidx a rights := by
  intro rights
  induction rights with
  | nil => rfl
  | cons b rest ih =>
    simp only [applySelect, checkRight_rightCps]
    cases h : checkRight allowed pen cut a b <;> simp [h, ih]

/-- Characterization of the loop of create_checkpoint_to_rights: the left
anchor accumulates the selected indices in its right checkpoint list, and
each selected right anchor gains the left anchor index in its left
checkpoint list. -/
theorem checkpointToRightsGo_char (allowed : Nat) (pen : Penalties) (cut : Cutoff)
    (lidx : Nat) :
    ∀ (rights : List Anchor) (ridx : Nat) (a : Anchor),
      checkpointToRightsGo allowed pen cut lidx a rights ridx =
        ({a with rightCheckPoints :=
            a.rightCheckPoints ++ selectRights allowed pen cut a rights ridx},
         applySelect allowed pen cut lidx a rights) := by
  intro rights
  induction rights with
  | nil =>
    intro ridx a
    simp [checkpointToRightsGo, selectRights, applySelect]
  | cons b rest ih =>
    intro ridx a
    cases h : checkRight allowed pen cut a b with
    | skip =>
      simp only [checkpointToRightsGo, selectRights, applySelect, h]
      rw [ih (ridx + 1) a]
    | brk =>
      simp [checkpointToRightsGo, selectRights, applySelect, h]
    | connect =>
      simp only [checkpointToRightsGo, selectRights, applySelect, h]
      rw [ih (ridx + 1) {a with rightCheckPoints := a.rightCheckPoints ++ [ridx]},
        selectRights_rightCps, applySelect_rightCps]
      simp

/-- Every index selected by the loop lies in the index range of the scanned
right anchors. -/
theorem selectRights_bounds (allowed : Nat) (pen : Penalties) (cut : Cutoff)
    (a : Anchor) :
    ∀ (rights : List Anchor) (ridx t : Nat),
      t ∈ selectRights allowed pen cut a rights ridx →
      ridx ≤ t ∧ t < ridx + rights.length := by
  intro rights
  induction rights with
  | nil =>
    intro ridx t h
    simp [selectRights] at h
  | cons b rest ih =>
    intro ridx t h
    simp only [selectRights] at h
    revert h
    cases hc : checkRight allowed pen cut a b <;> intro h
    · have := ih (ridx + 1) t h
      simp only [List.length_cons]
      omega
    · simp at h
    · simp only [List.mem_cons] at h
      rcases h with h | h
      · simp only [List.length_cons]
        omega
      · have := ih (ridx + 1) t h
        simp only [List.length_cons]
        omega

/-- Per-index description of applySelect: the anchor at offset m gains the
left anchor index exactly when its absolute index is selected. -/
theorem applySelect_getD (allowed : Nat) (pen : Penalties) (cut : Cutoff)
    (lidx : Nat) (a : Anchor) :
    ∀ (rights : List Anchor) (ridx m : Nat), m < rights.length →
      (applySelect allowed pen cut lidx a rights).getD m dfltAnchor =
        (if (ridx + m) ∈ selectRights allowed pen cut a rights ridx
         then {(rights.getD m dfltAnchor) with leftCheckPoints :=
            (rights.getD m dfltAnchor).leftCheckPoints ++ [lidx]}
         else rights.getD m dfltAnchor) := by
  intro rights
  induction rights with
  | nil =>
    intro ridx m hm
    simp at hm
  | cons b rest ih =>
    intro ridx m hm
    cases hc : checkRight allowed pen cut a b with
    | skip =>
      cases m with
      | zero =>
        have hnot : ridx ∉ selectRights allowed pen cut a rest (ridx + 1) := by
          intro hmem
          have := selectRights_bounds allowed pen cut a rest (ridx + 1) ridx hmem
          omega
        simp [applySelect, selectRights, hc, hnot]
      | succ m2 =>
        have harith : ridx + (m2 + 1) = (ridx + 1) + m2 := by omega
        simp only [applySelect, selectRights, hc, List.getD_cons_succ]
        rw [harith, ih (ridx + 1) m2 (by simpa using hm)]
    | brk =>
      simp [applySelect, selectRights, hc]
    | connect =>
      cases m with
      | zero =>
        simp [applySelect, selectRights, hc]
      | succ m2 =>
        have hne : ridx + (m2 + 1) ≠ ridx := by omega
        have harith : ridx + (m2 + 1) = (ridx + 1) + m2 := by omega
        simp only [applySelect, selectRights, hc, List.getD_cons_succ,
          List.mem_cons, hne, false_or]
        rw [harith, ih (ridx + 1) m2 (by simpa using hm)]

/-- The loop leaves the break outcome exactly when the query gap bound is
exceeded (the query position of the right anchor lies beyond the allowed
window of the left anchor). -/
theorem checkRight_brk_iff (allowed : Nat) (pen : Penalties) (cut : Cutoff)
    (a b : Anchor) :
    checkRight allowed pen cut a b = StepOutcome.brk ↔
      a.queryPosition + a.size + allowed < b.queryPosition := by
  simp only [checkRight]
  split_ifs with h1 h2 h3 h4 <;> simp <;> omega

/-- The gap penalty of checkRight equals the claim-side forced indel
penalty. -/
theorem gapPenalty_eq (pen : Penalties) (a b : Anchor) :
    (if max (pairRecordGap a b) (pairQueryGap a b)
          - min (pairRecordGap a b) (pairQueryGap a b) = 0 then 0
     else pen.o + (max (pairRecordGap a b) (pairQueryGap a b)
          - min (pairRecordGap a b) (pairQueryGap a b)) * pen.e)
      = pairGapPenalty pen a b := by
  unfold pairGapPenalty
  by_cases h : pairRecordGap a b = pairQueryGap a b
  · rw [if_pos (by omega), if_pos h]
  · rw [if_neg (by omega), if_neg h]

/-- The connect outcome of checkRight is exactly the amended linkability
requirement. -/
theorem checkRight_connect_iff (patternSize : Nat) (pen : Penalties) (cut : Cutoff)
    (a b : Anchor) :
    checkRight (patternSize * PATTERN_INDEX_GAP_FOR_CHECK_POINTS) pen cut a b
        = StepOutcome.connect
      ↔ connRequirementAmended patternSize pen cut a b := by
  by_cases h1 : b.queryPosition < a.queryPosition + a.size
  · constructor
    · intro h
      simp only [checkRight, if_pos h1] at h
      exact absurd h (by simp)
    · intro hc
      exact absurd hc.1 (by omega)
  · by_cases h2 : patternSize * PATTERN_INDEX_GAP_FOR_CHECK_POINTS
        < b.queryPosition - (a.queryPosition + a.size)
    · constructor
      · intro h
        simp only [checkRight, if_neg h1, if_pos h2] at h
        exact absurd h (by simp)
      · intro hc
        exact absurd hc.2.2.1 (by unfold pairQueryGap; omega)
    · by_cases h3 : b.recordPosition < a.recordPosition + a.size
      · constructor
        · intro h
          simp only [checkRight, if_neg h1, if_neg h2, if_pos h3] at h
          exact absurd h (by simp)
        · intro hc
          exact absurd hc.2.1 (by omega)
      · have hgapRaw := gapPenalty_eq pen a b
        unfold pairRecordGap pairQueryGap at hgapRaw
        have hP2 : a.leftEstimation.penalty + b.rightEstimation.penalty
            + pairGapPenalty pen a b = pairTotalPenalty pen a b := rfl
        have hLnat : a.leftEstimation.length + a.size + b.rightEstimation.length
            + max (b.recordPosition - (a.recordPosition + a.size))
                (b.queryPosition - (a.queryPosition + a.size))
            = pairLengthCode a b := by
          unfold pairLengthCode pairRecordGap pairQueryGap
          omega
        constructor
        · intro h
          simp only [checkRight, if_neg h1, if_neg h2, if_neg h3] at h
          rw [hgapRaw, hP2, hLnat] at h
          by_cases h4 : cut.minimumAlignedLength ≤ pairLengthCode a b ∧
              (pairTotalPenalty pen a b : ℚ) / (pairLengthCode a b : ℚ)
                ≤ cut.penaltyPerLength
          · exact ⟨by omega, by omega, by (unfold pairQueryGap; omega), h4.1, h4.2⟩
          · rw [if_neg h4] at h
            exact absurd h (by simp)
        · rintro ⟨hc1, hc2, hc3, hc4, hc5⟩
          simp only [checkRight, if_neg h1, if_neg h2, if_neg h3]
          rw [hgapRaw, hP2, hLnat, if_pos ⟨hc4, hc5⟩]

/-- Under anchors sorted by query position, an absolute index is selected by
the loop exactly when the pair passes the per-pair decision with the connect
outcome: the break exit removes only anchors that also fail the decision. -/
theorem selectRights_mem_iff (allowed : Nat) (pen : Penalties) (cut : Cutoff)
    (a : Anchor) :
    ∀ (rights : List Anchor) (ridx m : Nat), m < rights.length →
      rights.Pairwise (fun u v => u.queryPosition ≤ v.queryPosition) →
      ((ridx + m) ∈ selectRights allowed pen cut a rights ridx ↔
        checkRight allowed pen cut a (rights.getD m dfltAnchor)
          = StepOutcome.connect) := by
  intro rights
  induction rights with
  | nil =>
    intro ridx m hm
    simp at hm
  | cons b rest ih =>
    intro ridx m hm hpw
    obtain ⟨hhead, htail⟩ := List.pairwise_cons.mp hpw
    cases hc : checkRight allowed pen cut a b with
    | skip =>
      cases m with
      | zero =>
        have hnot : ridx ∉ selectRights allowed pen cut a rest (ridx + 1) := by
          intro hmem
          have := selectRights_bounds allowed pen cut a rest (ridx + 1) ridx hmem
          omega
        simp [selectRights, hc, hnot]
      | succ m2 =>
        have harith : ridx + (m2 + 1) = (ridx + 1) + m2 := by omega
        simp only [selectRights, hc, List.getD_cons_succ]
        rw [harith]
        exact ih (ridx + 1) m2 (by simpa using hm) htail
    | brk =>
      have hbrk := (checkRight_brk_iff allowed pen cut a b).mp hc
      cases m with
      | zero =>
        simp [selectRights, hc]
      | succ m2 =>
        have hm2 : m2 < rest.length := by simpa using hm
        have hmem : rest.getD m2 dfltAnchor ∈ rest := by
          rw [List.getD_eq_getElem?_getD, List.getElem?_eq_getElem hm2]
          exact List.getElem_mem hm2
        have hq : b.queryPosition ≤ (rest.getD m2 dfltAnchor).queryPosition :=
          hhead (rest.getD m2 dfltAnchor) hmem
        have hbrk2 : checkRight allowed pen cut a (rest.getD m2 dfltAnchor)
            = StepOutcome.brk :=
          (checkRight_brk_iff allowed pen cut a (rest.getD m2 dfltAnchor)).mpr
            (by omega)
        simp only [List.getD_eq_getElem?_getD] at hbrk2
        simp [selectRights, hc, hbrk2, List.getD_cons_succ,
          List.getD_eq_getElem?_getD]
    | connect =>
      cases m with
      | zero =>
        simp [selectRights, hc]
      | succ m2 =>
        have hne : ridx + (m2 + 1) ≠ ridx := by omega
        have harith : ridx + (m2 + 1) = (ridx + 1) + m2 := by omega
        simp only [selectRights, hc, List.getD_cons_succ, List.mem_cons, hne,
          false_or]
        rw [harith]
        exact ih (ridx + 1) m2 (by simpa using hm) htail

/-- C5 (amended): for a left anchor and a list of right anchors sorted by
query position, create_checkpoint_to_rights records a checkpoint pair
between the left anchor (index rightFirst - 1) and the right anchor at
offset m (index rightFirst + m) if and only if (1) the right anchor
overlaps the left anchor in neither sequence, (2) the query gap is at most
patternSize * PATTERN_INDEX_GAP_FOR_CHECK_POINTS, and (3) the lower bound
combining the left EMP of the left anchor, the right EMP of the right
anchor and the forced indel penalty, over the total length
left.left.length + left.size + max(record gap, query gap)
+ right.right.length, satisfies the cutoff: the size of the RIGHT anchor is
not part of the length (connRequirementAmended). -/
theorem claimC5_checkpointCondition (patternSize : Nat) (pen : Penalties)
    (cut : Cutoff) (left : Anchor) (rights : List Anchor) (rightFirst m : Nat)
    (hsorted : rights.Pairwise (fun u v => u.queryPosition ≤ v.queryPosition))
    (hm : m < rights.length) :
    ((rightFirst + m) ∈ (createCheckpointToRights left rights rightFirst
        (patternSize * PATTERN_INDEX_GAP_FOR_CHECK_POINTS) pen cut).1.rightCheckPoints
      ↔ ((rightFirst + m) ∈ left.rightCheckPoints ∨
          connRequirementAmended patternSize pen cut left
            (rights.getD m dfltAnchor))) ∧
    ((rightFirst - 1) ∈ ((createCheckpointToRights left rights rightFirst
        (patternSize * PATTERN_INDEX_GAP_FOR_CHECK_POINTS) pen cut).2.getD m
        dfltAnchor).leftCheckPoints
      ↔ ((rightFirst - 1) ∈ (rights.getD m dfltAnchor).leftCheckPoints ∨
          connRequirementAmended patternSize pen cut left
            (rights.getD m dfltAnchor))) := by
  unfold createCheckpointToRights
  rw [checkpointToRightsGo_char]
  have hsel := selectRights_mem_iff
    (patternSize * PATTERN_INDEX_GAP_FOR_CHECK_POINTS) pen cut left rights
    rightFirst m hm hsorted
  have hconn := checkRight_connect_iff patternSize pen cut left
    (rights.getD m dfltAnchor)
  constructor
  · simp only [List.mem_append]
    rw [hsel, hconn]
  · rw [applySelect_getD (patternSize * PATTERN_INDEX_GAP_FOR_CHECK_POINTS)
      pen cut (rightFirst - 1) left rights rightFirst m hm]
    by_cases hmem : (rightFirst + m) ∈ selectRights
        (patternSize * PATTERN_INDEX_GAP_FOR_CHECK_POINTS) pen cut left rights
        rightFirst
    · rw [if_pos hmem]
      have hcr : connRequirementAmended patternSize pen cut left
          (rights.getD m dfltAnchor) := hconn.mp (hsel.mp hmem)
      simp only [List.getD_eq_getElem?_getD] at hcr
      simp [hcr, List.getD_eq_getElem?_getD]
    · rw [if_neg hmem]
      have hcr : ¬ connRequirementAmended patternSize pen cut left
          (rights.getD m dfltAnchor) := fun hx => hmem (hsel.mpr (hconn.mpr hx))
      simp only [List.getD_eq_getElem?_getD] at hcr
      simp [hcr, List.getD_eq_getElem?_getD]

/-- Witness for claimC5_checkpointCondition: the sample pair with the loose
cutoff, one right anchor at offset 0 with rightFirst = 1. -/
theorem claimC5_checkpointCondition_witness :
    (([sampleRight] : List Anchor).Pairwise
        (fun u v => u.queryPosition ≤ v.queryPosition) ∧
      (0 : Nat) < ([sampleRight] : List Anchor).length) ∧
    (((1 + 0) ∈ (createCheckpointToRights sampleLeft [sampleRight] 1
        (10 * PATTERN_INDEX_GAP_FOR_CHECK_POINTS) ⟨4, 6, 2⟩
        sampleCutoffLoose).1.rightCheckPoints
      ↔ ((1 + 0) ∈ sampleLeft.rightCheckPoints ∨
          connRequirementAmended 10 ⟨4, 6, 2⟩ sampleCutoffLoose sampleLeft
            (([sampleRight] : List Anchor).getD 0 dfltAnchor))) ∧
    ((1 - 1) ∈ ((createCheckpointToRights sampleLeft [sampleRight] 1
        (10 * PATTERN_INDEX_GAP_FOR_CHECK_POINTS) ⟨4, 6, 2⟩
        sampleCutoffLoose).2.getD 0 dfltAnchor).leftCheckPoints
      ↔ ((1 - 1) ∈ (([sampleRight] : List Anchor).getD 0 dfltAnchor).leftCheckPoints ∨
          connRequirementAmended 10 ⟨4, 6, 2⟩ sampleCutoffLoose sampleLeft
            (([sampleRight] : List Anchor).getD 0 dfltAnchor)))) :=
  ⟨⟨by simp, by decide⟩,
    claimC5_checkpointCondition 10 ⟨4, 6, 2⟩ sampleCutoffLoose sampleLeft
      [sampleRight] 1 0 (by simp) (by decide)⟩

/-- C5 (counterexample to the claim as stated): the sample pair satisfies
every condition of the claim, including the cutoff over the claim length
that counts the right anchor size (length 20 >= 15, penalty 0), yet
create_checkpoint_to_rights records no checkpoint because the code length
omits the right anchor size (length 10 < 15): both checkpoint lists stay
empty. -/
theorem claimC5_counterexample :
    connRequirementClaim 10 ⟨4, 6, 2⟩ sampleCutoffStrict sampleLeft sampleRight ∧
    createCheckpointToRights sampleLeft [sampleRight] 1
        (10 * PATTERN_INDEX_GAP_FOR_CHECK_POINTS) ⟨4, 6, 2⟩ sampleCutoffStrict
      = (sampleLeft, [sampleRight]) := by
  constructor
  · refine ⟨by decide, by decide, by decide, by decide, ?_⟩
    norm_num [pairTotalPenalty, pairGapPenalty, pairRecordGap, pairQueryGap,
      pairLengthClaim, sampleLeft, sampleRight, sampleCutoffStrict]
  · decide

/-- applySelect preserves the length of the right anchor list. -/
theorem applySelect_length (allowed : Nat) (pen : Penalties) (cut : Cutoff)
    (lidx : Nat) (a : Anchor) :
    ∀ (rights : List Anchor),
      (applySelect allowed pen cut lidx a rights).length = rights.length := by
  intro rights
  induction rights with
  | nil => rfl
  | cons b rest ih =>
    cases hc : checkRight allowed pen cut a b <;> simp [applySelect, hc, ih]

/-- An in-range getD read of a list is one of its members. -/
theorem getD_mem_of_lt {α : Type} (l : List α) (d : α) (t : Nat) (ht : t < l.length) :
    l.getD t d ∈ l := by
  rw [List.getD_eq_getElem?_getD, List.getElem?_eq_getElem ht]
  exact List.getElem_mem ht

/-- Anchors with empty checkpoint lists are trivially symmetric. -/
theorem emptyCps_sym (as : List Anchor)
    (hempty : ∀ a ∈ as, a.leftCheckPoints = [] ∧ a.rightCheckPoints = []) :
    symmetricCheckPoints as := by
  intro i j hi hj
  constructor
  · intro hmem
    rw [(hempty _ (getD_mem_of_lt as dfltAnchor i hi)).2] at hmem
    simp at hmem
  · intro hmem
    rw [(hempty _ (getD_mem_of_lt as dfltAnchor j hj)).1] at hmem
    simp at hmem

/-- One iteration of create_checkpoints_between_anchors preserves the
symmetric ordered shape of the checkpoint relation: checkpoints are added
only in pairs, the selected index into the right list of the left anchor,
the left anchor index into the left list of the selected anchor. -/
theorem checkpointStep_sym (allowed : Nat) (pen : Penalties) (cut : Cutoff)
    (as : List Anchor) (rf : Nat) (hsym : symmetricCheckPoints as) :
    symmetricCheckPoints (checkpointStep allowed pen cut as rf) := by
  simp only [checkpointStep]
  cases hlast : (as.take rf).getLast? with
  | none => exact hsym
  | some l =>
    have hne : as.take rf ≠ [] := by
      intro h0
      rw [h0] at hlast
      cases hlast
    have hrf0 : rf ≠ 0 ∧ as ≠ [] := by
      constructor <;> intro h0 <;> simp [h0] at hne
    have haslen : 0 < as.length := by
      cases hx : as with
      | nil => exact absurd hx hrf0.2
      | cons y ys => simp [hx]
    by_cases hlen : rf ≤ as.length
    · -- rf within range: the left anchor is as[rf - 1]
      have htlen : (as.take rf).length = rf := by
        simp [hlen]
      have hl : l = as.getD (rf - 1) dfltAnchor := by
        have h1 := List.getLast?_eq_getElem? (as.take rf)
        rw [hlast, htlen] at h1
        have h2 : (as.take rf)[rf - 1]? = as[rf - 1]? := by
          rw [List.getElem?_take, if_pos (by omega)]
        rw [List.getD_eq_getElem?_getD, ← h2, ← h1]
        rfl
      show symmetricCheckPoints ((List.take rf as).dropLast ++
        (checkpointToRightsGo allowed pen cut (rf - 1) l (List.drop rf as) rf).1 ::
          (checkpointToRightsGo allowed pen cut (rf - 1) l (List.drop rf as) rf).2)
      rw [checkpointToRightsGo_char]
      have hdrop : (as.take rf).dropLast = as.take (rf - 1) := by
        rw [List.dropLast_eq_take, htlen, List.take_take]
        congr 1
        omega
      rw [hdrop]
      set rights := as.drop rf with hrightsdef
      set sel := selectRights allowed pen cut l rights rf with hseldef
      set modL : Anchor :=
        {l with rightCheckPoints := l.rightCheckPoints ++ sel} with hmodL
      set A2 := applySelect allowed pen cut (rf - 1) l rights with hA2
      have hrlen : rights.length = as.length - rf := by
        simp [hrightsdef]
      have hA2len : A2.length = as.length - rf := by
        rw [hA2, applySelect_length]
        exact hrlen
      have htk1len : (as.take (rf - 1)).length = rf - 1 := by
        simp
        omega
      have hgetD : ∀ t, t < as.length →
          (as.take (rf - 1) ++ modL :: A2).getD t dfltAnchor =
            (if t < rf - 1 then as.getD t dfltAnchor
             else if t = rf - 1 then modL
             else A2.getD (t - rf) dfltAnchor) := by
        intro t ht
        by_cases hc1 : t < rf - 1
        · rw [if_pos hc1]
          rw [List.getD_eq_getElem?_getD, List.getElem?_append, htk1len,
            if_pos hc1]
          rw [List.getElem?_take, if_pos (by omega : t < rf - 1)]
          rw [List.getD_eq_getElem?_getD]
        · rw [if_neg hc1]
          rw [List.getD_eq_getElem?_getD,
            List.getElem?_append_right (by omega : (as.take (rf - 1)).length ≤ t)]
          rw [htk1len]
          by_cases hc2 : t = rf - 1
          · rw [if_pos hc2]
            have : t - (rf - 1) = 0 := by omega
            rw [this]
            simp
          · rw [if_neg hc2]
            have : t - (rf - 1) = (t - rf) + 1 := by omega
            rw [this]
            simp [List.getD_eq_getElem?_getD]
      have hA2getD : ∀ t, rf ≤ t → t < as.length →
          A2.getD (t - rf) dfltAnchor =
            (if t ∈ sel
             then {(as.getD t dfltAnchor) with leftCheckPoints :=
                (as.getD t dfltAnchor).leftCheckPoints ++ [rf - 1]}
             else as.getD t dfltAnchor) := by
        intro t ht1 ht2
        have hmlt : t - rf < rights.length := by omega
        have hidx : rf + (t - rf) = t := by omega
        have hrg : rights.getD (t - rf) dfltAnchor = as.getD t dfltAnchor := by
          rw [hrightsdef, List.getD_eq_getElem?_getD, List.getElem?_drop, hidx,
            List.getD_eq_getElem?_getD]
        rw [hA2, applySelect_getD allowed pen cut (rf - 1) l rights rf (t - rf) hmlt,
          hidx, hrg]
      have hselb : ∀ t, t ∈ sel → rf ≤ t ∧ t < as.length := by
        intro t htm
        have := selectRights_bounds allowed pen cut l rights rf t htm
        omega
      have hR : ∀ t, t < as.length →
          ((as.take (rf - 1) ++ modL :: A2).getD t dfltAnchor).rightCheckPoints =
            (as.getD t dfltAnchor).rightCheckPoints
              ++ (if t = rf - 1 then sel else []) := by
        intro t ht
        rw [hgetD t ht]
        by_cases hc1 : t < rf - 1
        · rw [if_pos hc1, if_neg (by omega)]
          simp
        · by_cases hc2 : t = rf - 1
          · rw [if_neg hc1, if_pos hc2, if_pos hc2, hmodL, hl, hc2]
          · rw [if_neg hc1, if_neg hc2, if_neg hc2,
              hA2getD t (by omega) ht]
            by_cases hc3 : t ∈ sel
            · rw [if_pos hc3]
              simp
            · rw [if_neg hc3]
              simp
      have hL : ∀ t, t < as.length →
          ((as.take (rf - 1) ++ modL :: A2).getD t dfltAnchor).leftCheckPoints =
            (as.getD t dfltAnchor).leftCheckPoints
              ++ (if t ∈ sel then [rf - 1] else []) := by
        intro t ht
        rw [hgetD t ht]
        by_cases hc1 : t < rf - 1
        · have hnm : t ∉ sel := by
            intro hx
            have := hselb t hx
            omega
          rw [if_pos hc1, if_neg hnm]
          simp
        · by_cases hc2 : t = rf - 1
          · have hnm : t ∉ sel := by
              intro hx
              have := hselb t hx
              omega
            rw [if_neg hc1, if_pos hc2, if_neg hnm, hmodL, hl, hc2]
            simp
          · rw [if_neg hc1, if_neg hc2, hA2getD t (by omega) ht]
            by_cases hc3 : t ∈ sel
            · rw [if_pos hc3, if_pos hc3]
            · rw [if_neg hc3, if_neg hc3]
              simp
      have holen : (as.take (rf - 1) ++ modL :: A2).length = as.length := by
        simp only [List.length_append, List.length_cons, htk1len, hA2len]
        omega
      intro i j hi hj
      rw [holen] at hi hj
      constructor
      · intro hmem
        rw [hR i hi, List.mem_append] at hmem
        rcases hmem with hold | hnew
        · obtain ⟨hij, hml⟩ := (hsym i j hi hj).1 hold
          refine ⟨hij, ?_⟩
          rw [hL j hj, List.mem_append]
          exact Or.inl hml
        · by_cases hi2 : i = rf - 1
          · rw [if_pos hi2] at hnew
            obtain ⟨hjge, _⟩ := hselb j hnew
            refine ⟨by omega, ?_⟩
            rw [hL j hj, List.mem_append, if_pos hnew]
            right
            simp [hi2]
          · rw [if_neg hi2] at hnew
            simp at hnew
      · intro hmem
        rw [hL j hj, List.mem_append] at hmem
        rcases hmem with hold | hnew
        · obtain ⟨hij, hmr⟩ := (hsym i j hi hj).2 hold
          refine ⟨hij, ?_⟩
          rw [hR i hi, List.mem_append]
          exact Or.inl hmr
        · by_cases hj2 : j ∈ sel
          · rw [if_pos hj2] at hnew
            have hi2 : i = rf - 1 := by simpa using hnew
            obtain ⟨hjge, _⟩ := hselb j hj2
            refine ⟨by omega, ?_⟩
            rw [hR i hi, List.mem_append, if_pos hi2]
            exact Or.inr hj2
          · rw [if_neg hj2] at hnew
            simp at hnew
    · -- rf beyond the vector: the step leaves the anchors unchanged
      have htake : as.take rf = as := List.take_of_length_le (by omega)
      have hdropnil : as.drop rf = [] := List.drop_eq_nil_of_le (by omega)
      show symmetricCheckPoints ((List.take rf as).dropLast ++
        (checkpointToRightsGo allowed pen cut (rf - 1) l (List.drop rf as) rf).1 ::
          (checkpointToRightsGo allowed pen cut (rf - 1) l (List.drop rf as) rf).2)
      rw [checkpointToRightsGo_char, hdropnil]
      simp only [selectRights, applySelect]
      have hming : ({l with rightCheckPoints := l.rightCheckPoints ++ []} : Anchor)
          = l := by
        simp
      rw [hming]
      have hlast2 : as.getLast? = some l := by
        rw [← htake]
        exact hlast
      have hlg : l = as.getLast hrf0.2 := by
        rw [List.getLast?_eq_getLast as hrf0.2] at hlast2
        exact (Option.some.injEq _ _).mp hlast2.symm
      rw [htake, hlg, List.dropLast_append_getLast hrf0.2]
      exact hsym

/-- The whole checkpoint creation fold preserves the symmetric shape. -/
theorem checkpointFold_sym (allowed : Nat) (pen : Penalties) (cut : Cutoff) :
    ∀ (rfs : List Nat) (as : List Anchor), symmetricCheckPoints as →
      symmetricCheckPoints (rfs.foldl (checkpointStep allowed pen cut) as) := by
  intro rfs
  induction rfs with
  | nil => intro as h; exact h
  | cons r rest ih =>
    intro as h
    exact ih _ (checkpointStep_sym allowed pen cut as r h)

/-- C10: after create_checkpoints_between_anchors completes on anchors with
empty checkpoint lists, the checkpoint relation is symmetric and ordered:
indices in right (hind) lists point strictly right, indices in left (fore)
lists point strictly left, and for all i < j the anchor index j appears in
the right checkpoint list of anchor i exactly when i appears in the left
checkpoint list of anchor j; checkpoints are only ever added in such
pairs. -/
theorem claimC10_checkpointSymmetry (patternSize : Nat) (pen : Penalties)
    (cut : Cutoff) (anchors : List Anchor)
    (hempty : ∀ a ∈ anchors, a.leftCheckPoints = [] ∧ a.rightCheckPoints = []) :
    symmetricCheckPoints
      (createCheckpointsBetweenAnchors patternSize pen cut anchors) ∧
    (∀ i j, i < j →
      j < (createCheckpointsBetweenAnchors patternSize pen cut anchors).length →
      (j ∈ ((createCheckpointsBetweenAnchors patternSize pen cut anchors).getD i
          dfltAnchor).rightCheckPoints ↔
        i ∈ ((createCheckpointsBetweenAnchors patternSize pen cut anchors).getD j
          dfltAnchor).leftCheckPoints)) := by
  have hsym : symmetricCheckPoints
      (createCheckpointsBetweenAnchors patternSize pen cut anchors) := by
    unfold createCheckpointsBetweenAnchors
    exact checkpointFold_sym
      (patternSize * PATTERN_INDEX_GAP_FOR_CHECK_POINTS) pen cut
      (List.range' 1 (anchors.length - 1)) anchors (emptyCps_sym anchors hempty)
  refine ⟨hsym, ?_⟩
  intro i j hij hj
  have hi : i < (createCheckpointsBetweenAnchors patternSize pen cut
      anchors).length := by omega
  constructor
  · intro hm
    exact ((hsym i j hi hj).1 hm).2
  · intro hm
    exact ((hsym i j hi hj).2 hm).2

/-- Witness for claimC10_checkpointSymmetry on a concrete two-anchor run in
which a checkpoint pair is created. -/
theorem claimC10_checkpointSymmetry_witness :
    (∀ a ∈ ([sampleLeft, sampleRight] : List Anchor),
      a.leftCheckPoints = [] ∧ a.rightCheckPoints = []) ∧
    (symmetricCheckPoints
      (createCheckpointsBetweenAnchors 10 ⟨4, 6, 2⟩ sampleCutoffLoose
        [sampleLeft, sampleRight]) ∧
    (∀ i j, i < j →
      j < (createCheckpointsBetweenAnchors 10 ⟨4, 6, 2⟩ sampleCutoffLoose
        [sampleLeft, sampleRight]).length →
      (j ∈ ((createCheckpointsBetweenAnchors 10 ⟨4, 6, 2⟩ sampleCutoffLoose
          [sampleLeft, sampleRight]).getD i dfltAnchor).rightCheckPoints ↔
        i ∈ ((createCheckpointsBetweenAnchors 10 ⟨4, 6, 2⟩ sampleCutoffLoose
          [sampleLeft, sampleRight]).getD j dfltAnchor).leftCheckPoints))) :=
  ⟨by decide,
    claimC10_checkpointSymmetry 10 ⟨4, 6, 2⟩ sampleCutoffLoose
      [sampleLeft, sampleRight] (by decide)⟩

end Core

end Sigalign
